import Mathlib

/-!
# Verification of the factbuilder Fact Resolution Engine

A shallow embedding of the core of the `factbuilder` repository:

* `facts/context.py` — context normalization and hashing,
* `facts/graph.py` — the dependency graph and cycle detection,
* `facts/executor.py` — restricted expression evaluation,
* `facts/schema_validation.py` — context validation against a parameter schema,
* `facts/taxonomy.py` — the recursive resolver `resolve_fact`, the registry
  builder `build_taxonomy`, and `safe_execute`,
* `facts/router.py` — the intent router.

Modelling conventions: Python values that can appear in a fact context are
embedded as the inductive `Value`; Python dicts are association lists in
insertion order (keys unique in any dict built by Python); Python numbers are
exact rationals (`Int` for `int`, `Rat` for `float` and `Decimal`); external
collaborators (SHA-256, rapidfuzz, compiled regular expressions, dynamic
Python code bodies) are modelled by their input/output behaviour, as noted at
each definition.
-/

/-! ## Values: the JSON-like data contexts and fact values range over -/

/-- A Python value as it appears in fact contexts and fact values:
`None`, `bool`, `int`, `float` (`vnum`, modelled as an exact rational),
`str`, `datetime.date` (year, month, day), `Decimal` (`vdec`, modelled as an
exact rational), `list`/`tuple`, and `dict` (an association list in insertion
order). -/
inductive Value where
  | vnull : Value
  | vbool : Bool → Value
  | vint : Int → Value
  | vnum : Rat → Value
  | vstr : String → Value
  | vdate : Nat → Nat → Nat → Value
  | vdec : Rat → Value
  | vlist : List Value → Value
  | vdict : List (String × Value) → Value

mutual

/-- Structural equality of values (the shape Python `==` takes on the
dict/list/scalar values used here; numeric cross-type comparisons such as
`1 == 1.0` are not identified, none of the embedded code relies on them). -/
def beqV : Value → Value → Bool
  | .vnull, .vnull => true
  | .vbool a, .vbool b => a == b
  | .vint a, .vint b => a == b
  | .vnum a, .vnum b => a == b
  | .vstr a, .vstr b => a == b
  | .vdate y m d, .vdate y' m' d' => y == y' && m == m' && d == d'
  | .vdec a, .vdec b => a == b
  | .vlist a, .vlist b => beqL a b
  | .vdict a, .vdict b => beqF a b
  | _, _ => false
termination_by structural a => a

/-- Element-wise `beqV` on lists. -/
def beqL : List Value → List Value → Bool
  | [], [] => true
  | a :: as', b :: bs' => beqV a b && beqL as' bs'
  | _, _ => false
termination_by structural a => a

/-- Field-wise `beqV` on dict items. -/
def beqF : List (String × Value) → List (String × Value) → Bool
  | [], [] => true
  | (k, v) :: as', (k', v') :: bs' => k == k' && beqV v v' && beqF as' bs'
  | _, _ => false
termination_by structural a => a

end

/-- Zero-padded two-digit rendering, as in `date.isoformat`. -/
def pad2 (n : Nat) : String :=
  if n < 10 then "0" ++ toString n else toString n

/-- Zero-padded four-digit rendering of the year, as in `date.isoformat`. -/
def pad4 (n : Nat) : String :=
  if n < 10 then "000" ++ toString n
  else if n < 100 then "00" ++ toString n
  else if n < 1000 then "0" ++ toString n
  else toString n

/-- `date(y, m, d).isoformat()`: the fixed ISO-8601 `YYYY-MM-DD` form. -/
def isoDate (y m d : Nat) : String :=
  pad4 y ++ "-" ++ pad2 m ++ "-" ++ pad2 d

/-- The transient keys stripped by `normalize_context`
(`facts/context.py` line 30). -/
def transientKeys : List String := ["user", "request", "session_id"]

mutual

/-- `normalize_context` of `facts/context.py`: recursively strips the
transient keys from every dict, converts dates to ISO strings and `Decimal`
to `float`, and rebuilds lists/tuples as lists.  Key order is preserved
(sorting happens in `hash_context`'s `json.dumps(..., sort_keys=True)`). -/
def normalize_context : Value → Value
  | .vdict fs => .vdict (normalizeFields fs)
  | .vlist xs => .vlist (normalizeList xs)
  | .vdate y m d => .vstr (isoDate y m d)
  | .vdec q => .vnum q
  | v => v
termination_by structural v => v

/-- The element-wise recursion of `normalize_context` over a list. -/
def normalizeList : List Value → List Value
  | [] => []
  | x :: xs => normalize_context x :: normalizeList xs
termination_by structural l => l

/-- The field-wise recursion of `normalize_context` over a dict's items:
transient keys are dropped, other values normalized recursively. -/
def normalizeFields : List (String × Value) → List (String × Value)
  | [] => []
  | (k, v) :: rest =>
    if k ∈ transientKeys then normalizeFields rest
    else (k, normalize_context v) :: normalizeFields rest
termination_by structural l => l

end

/-- Rendering of a number by `json.dumps`.  Python renders a float by its
shortest decimal form; since floats are modelled as exact rationals, we use
an injective rendering of the rational, which preserves exactly the equalities
and disequalities of the Python rendering on the modelled values. -/
def renderNum (q : Rat) : String :=
  if q.den = 1 then toString q.num ++ ".0"
  else toString q.num ++ "/" ++ toString q.den

/-- JSON string quoting (escape sequences are not modelled: context keys and
strings in this development contain no characters needing escapes). -/
def quoteStr (s : String) : String := "\"" ++ s ++ "\""

/-- Code-point lexicographic comparison of strings, the order by which
`json.dumps(sort_keys=True)` sorts dict keys. -/
def lexLe : List Char → List Char → Bool
  | [], _ => true
  | _ :: _, [] => false
  | c :: cs, d :: ds =>
    if c.toNat < d.toNat then true
    else if c.toNat = d.toNat then lexLe cs ds
    else false

/-- `keyLe a b`: key `a` sorts no later than key `b`. -/
def keyLe (a b : String) : Bool := lexLe a.data b.data

/-- Insert one key-value pair into a key-sorted field list, preserving
sortedness: the comparison `json.dumps(sort_keys=True)` applies to keys. -/
def insertPair (p : String × Value) : List (String × Value) → List (String × Value)
  | [] => [p]
  | q :: rest => if keyLe p.1 q.1 then p :: q :: rest else q :: insertPair p rest

/-- Sort a dict's fields by key (insertion sort), as
`json.dumps(..., sort_keys=True)` does at every nesting level. -/
def sortPairs : List (String × Value) → List (String × Value)
  | [] => []
  | p :: rest => insertPair p (sortPairs rest)

mutual

/-- Recursively sort every dict's fields by key.  `json.dumps(v, sort_keys=True)`
is rendered here as order-preserving serialization (`serializeValue`) of
`deepSort v`. -/
def deepSort : Value → Value
  | .vdict fs => .vdict (sortPairs (deepSortFields fs))
  | .vlist xs => .vlist (deepSortList xs)
  | v => v
termination_by structural v => v

/-- The element-wise recursion of `deepSort` over a list. -/
def deepSortList : List Value → List Value
  | [] => []
  | x :: xs => deepSort x :: deepSortList xs
termination_by structural l => l

/-- The field-wise recursion of `deepSort` over a dict's items. -/
def deepSortFields : List (String × Value) → List (String × Value)
  | [] => []
  | (k, v) :: rest => (k, deepSort v) :: deepSortFields rest
termination_by structural l => l

end

mutual

/-- Order-preserving rendering with the `json.dumps` separators `(',', ':')`.
Applied after `deepSort`, this is `json.dumps(·, sort_keys=True,
separators=(',', ':'))`. -/
def serializeValue : Value → String
  | .vnull => "null"
  | .vbool b => if b then "true" else "false"
  | .vint n => toString n
  | .vnum q => renderNum q
  | .vstr s => quoteStr s
  | .vdate y m d => quoteStr (isoDate y m d)
  | .vdec q => renderNum q
  | .vlist xs => "[" ++ serializeList xs ++ "]"
  | .vdict fs => "\x7b" ++ serializeFields fs ++ "\x7d"
termination_by structural v => v

/-- Comma-joined rendering of a list's elements. -/
def serializeList : List Value → String
  | [] => ""
  | [x] => serializeValue x
  | x :: y :: rest => serializeValue x ++ "," ++ serializeList (y :: rest)
termination_by structural l => l

/-- Comma-joined rendering of a dict's fields. -/
def serializeFields : List (String × Value) → String
  | [] => ""
  | [(k, v)] => quoteStr k ++ ":" ++ serializeValue v
  | (k, v) :: q :: rest =>
    quoteStr k ++ ":" ++ serializeValue v ++ "," ++ serializeFields (q :: rest)
termination_by structural l => l

end

/-- A fact context: a Python dict, keys in insertion order. -/
abbrev Ctx := List (String × Value)

/-- `hash_context` of `facts/context.py`: the SHA-256 hex digest of
`json.dumps(normalize_context(context), sort_keys=True, separators=(',',':'))`.
The digest is a fixed deterministic function of the serialized string, so it
sends equal strings to equal digests and (in practice) distinct strings to
distinct digests; we model it by the serialized string itself, which has
exactly these properties.  No claim in this development relies on collision
behaviour. -/
def hash_context (context : Ctx) : String :=
  serializeValue (deepSort (normalize_context (.vdict context)))

example :
    hash_context [("b", .vint 2), ("a", .vint 1)]
      = hash_context [("a", .vint 1), ("b", .vint 2)] := by rfl

example :
    hash_context [("d", .vdate 2023 1 1)]
      = hash_context [("d", .vstr "2023-01-01")] := by rfl

example :
    hash_context [("a", .vint 1), ("user", .vstr "alice")]
      = hash_context [("a", .vint 1)] := by rfl

/-! ## Dependency graph (`facts/graph.py`) -/

/-- A `networkx.DiGraph` as `build_dependency_graph` uses it: node and edge
lists in insertion order, duplicates collapsed. -/
structure Graph where
  nodes : List String
  edges : List (String × String)
deriving DecidableEq

/-- `graph.add_node`: a no-op when the node is already present. -/
def addNode (g : Graph) (n : String) : Graph :=
  if n ∈ g.nodes then g else { g with nodes := g.nodes ++ [n] }

/-- `graph.add_edge`: adds missing endpoints as nodes (networkx semantics),
then the edge, a no-op when already present. -/
def addEdge (g : Graph) (a b : String) : Graph :=
  let g1 := addNode (addNode g a) b
  if (a, b) ∈ g1.edges then g1 else { g1 with edges := g1.edges ++ [(a, b)] }

/-- Membership test for an edge. -/
def edgeB (g : Graph) (a b : String) : Bool := (a, b) ∈ g.edges

/-- Consecutive elements of the list are all edges of `g`. -/
def chainArrows (g : Graph) : List String → Bool
  | [] => true
  | [_] => true
  | a :: b :: rest => edgeB g a b && chainArrows g (b :: rest)

/-- `c` is a simple cycle of `g`: a non-empty duplicate-free node list whose
consecutive pairs, and last-to-first pair, are all edges. -/
def isCycleList (g : Graph) (c : List String) : Bool :=
  !c.isEmpty && c.dedup == c && chainArrows g c &&
    (match c.getLast?, c.head? with
     | some l, some h => edgeB g l h
     | _, _ => false)

/-- `build_dependency_graph` of `facts/graph.py`: one `add_node` per
registered fact id, one `add_edge fact_id → dep_id` per entry of the fact's
flat `requires` list.  (The structured `dependencies` edges are not visited
by this function.)  Stated over the id/`requires` association directly; the
full `FactSpec` variant below instantiates it. -/
def buildGraphFrom (specs : List (String × List String)) : Graph :=
  specs.foldl
    (fun g p =>
      (p.2).foldl (fun g' dep => addEdge g' p.1 dep) (addNode g p.1))
    { nodes := [], edges := [] }

/-- All insertions of `x` into one position of the list. -/
def interleave (x : String) : List String → List (List String)
  | [] => [[x]]
  | y :: ys => (x :: y :: ys) :: (interleave x ys).map (y :: ·)

/-- All sub-permutations of the list: every list obtained by picking a
subset of its elements in any order. -/
def subPerms : List String → List (List String)
  | [] => [[]]
  | x :: xs =>
    let rest := subPerms xs
    rest ++ rest.flatMap (interleave x)

/-- `detect_cycles` of `facts/graph.py`: `list(nx.simple_cycles(graph))`, the
enumeration of all simple cycles of the graph.  `nx.simple_cycles` yields one
rotation of each cycle; the enumeration here lists every rotation (each
drawn from the duplicate-free arrangements of the node list), which has the
same cycles-as-sets content: in particular it is empty exactly when the
library's enumeration is. -/
def detect_cycles (g : Graph) : List (List String) :=
  (subPerms g.nodes).filter fun c => isCycleList g c

/-- `c` is a closed walk of `g`: non-empty, consecutive pairs and the
last-to-first pair are all edges (node repetition allowed).  A graph
contains a cycle exactly when it has a closed walk. -/
def isClosedWalk (g : Graph) (c : List String) : Bool :=
  !c.isEmpty && chainArrows g c &&
    (match c.getLast?, c.head? with
     | some l, some h => edgeB g l h
     | _, _ => false)

/-- The dependency graph contains a cycle. -/
def hasCycle (g : Graph) : Prop :=
  ∃ c, isClosedWalk g c = true

/-- Well-formedness every graph built by `add_node`/`add_edge` enjoys:
duplicate-free node list, edge endpoints among the nodes. -/
def graphWF (g : Graph) : Prop :=
  g.nodes.Nodup ∧ ∀ e ∈ g.edges, e.1 ∈ g.nodes ∧ e.2 ∈ g.nodes

/-! ## Expression executor (`facts/executor.py`) -/

/-- The restricted expression language evaluated by `execute_expression`
(`simpleeval` with the whitelist of `SAFE_FUNCTIONS`).  `simpleeval` parses a
Python-expression string; here expressions are embedded as their parse trees:
literals, names, boolean operators and comparisons — the fragment structured
dependency conditions use. -/
inductive Expr where
  | lit : Value → Expr
  | var : String → Expr
  | enot : Expr → Expr
  | eand : Expr → Expr → Expr
  | eor : Expr → Expr → Expr
  | eeq : Expr → Expr → Expr
  | elt : Expr → Expr → Expr

/-- Python truthiness of a value (`bool(v)`). -/
def truthy : Value → Bool
  | .vnull => false
  | .vbool b => b
  | .vint n => n != 0
  | .vnum q => q != 0
  | .vstr s => s != ""
  | .vdate _ _ _ => true
  | .vdec q => q != 0
  | .vlist xs => !xs.isEmpty
  | .vdict fs => !fs.isEmpty

/-- Numeric comparison `a < b`, erroring on non-numeric operands as Python
`<` does on mismatched types. -/
def vLt : Value → Value → Except String Value
  | .vint a, .vint b => .ok (.vbool (a < b))
  | .vint a, .vnum b => .ok (.vbool ((a : Rat) < b))
  | .vnum a, .vint b => .ok (.vbool (a < (b : Rat)))
  | .vnum a, .vnum b => .ok (.vbool (a < b))
  | _, _ => .error "unsupported operand types for comparison"

/-- `execute_expression` of `facts/executor.py`: evaluates the expression
against the `names` table; an undefined name raises (simpleeval's
`NameNotDefined`), surfaced as `Except.error`. -/
def execute_expression (e : Expr) (names : List (String × Value)) : Except String Value :=
  match e with
  | .lit v => .ok v
  | .var n =>
    match names.lookup n with
    | some v => .ok v
    | none => .error ("name not defined: " ++ n)
  | .enot a => do
    let va ← execute_expression a names
    return .vbool (!truthy va)
  | .eand a b => do
    let va ← execute_expression a names
    if truthy va then execute_expression b names else return va
  | .eor a b => do
    let va ← execute_expression a names
    if truthy va then return va else execute_expression b names
  | .eeq a b => do
    let va ← execute_expression a names
    let vb ← execute_expression b names
    return .vbool (beqV va vb)
  | .elt a b => do
    let va ← execute_expression a names
    let vb ← execute_expression b names
    vLt va vb

/-! ## Schema validation (`facts/schema_validation.py`) -/

/-- The JSON-Schema fragment the repository's `parameters_schema` values use
(`jsonschema.validate` with object schemas): a set of required keys and
per-property type constraints.  The `jsonschema` library is an external
collaborator; this models the object/required/type subset it is given. -/
structure Schema where
  required : List String
  properties : List (String × String)
deriving DecidableEq

/-- The Python type-name of a value, as a JSON-Schema primitive type. -/
def schemaTypeOf : Value → String
  | .vnull => "null"
  | .vbool _ => "boolean"
  | .vint _ => "integer"
  | .vnum _ => "number"
  | .vstr _ => "string"
  | .vdate _ _ _ => "date"
  | .vdec _ => "decimal"
  | .vlist _ => "array"
  | .vdict _ => "object"

/-- `validate_context` of `facts/schema_validation.py`: validates the runtime
context against the schema; a violation raises `ValueError` with the
validation message (modelled as `Except.error`). -/
def validate_context (context : Ctx) (schema : Schema) : Except String Unit := do
  match schema.required.find? (fun r => (context.lookup r).isNone) with
  | some r => throw ("Context validation failed: '" ++ r ++ "' is a required property")
  | none =>
    match schema.properties.find? (fun p =>
        match context.lookup p.1 with
        | some v => schemaTypeOf v != p.2
        | none => false) with
    | some p => throw ("Context validation failed: '" ++ p.1 ++ "' is not of type '" ++ p.2 ++ "'")
    | none => return ()

/-! ## Parameter-mapping templates (structured dependency edges) -/

/-- One part of a Jinja2 template string: literal text or a `\x7b\x7b var \x7d\x7d`
reference.  Jinja2 is an external collaborator; a template string is embedded
as its parsed part list. -/
inductive TmplPart where
  | lit : String → TmplPart
  | var : String → TmplPart

/-- A parsed Jinja2 template string. -/
abbrev Tmpl := List TmplPart

/-- Python `str(v)` for the scalar values parameter mappings render. -/
def pythonStr : Value → String
  | .vnull => "None"
  | .vbool b => if b then "True" else "False"
  | .vint n => toString n
  | .vnum q => renderNum q
  | .vstr s => s
  | .vdate y m d => isoDate y m d
  | .vdec q => renderNum q
  | .vlist xs => "[" ++ serializeList xs ++ "]"
  | .vdict fs => "\x7b" ++ serializeFields fs ++ "\x7d"

/-- `Template(template_str).render(context)`: literal parts verbatim, each
variable replaced by `str` of its context value; an undefined variable
renders as the empty string (Jinja2's default `Undefined`). -/
def renderTmpl (t : Tmpl) (context : Ctx) : String :=
  t.foldl
    (fun acc part =>
      match part with
      | .lit s => acc ++ s
      | .var n =>
        match context.lookup n with
        | some v => acc ++ pythonStr v
        | none => acc)
    ""

/-- Python `str.isdigit` on the modelled character set: non-empty and all
decimal digits. -/
def isdigitStr (s : String) : Bool :=
  !s.isEmpty && s.data.all Char.isDigit

/-- The numeric value of a digit string (`int(s)` for an `isdigit` string). -/
def strToNat (s : String) : Nat :=
  s.data.foldl (fun acc c => acc * 10 + (c.toNat - 48)) 0

/-- `s.replace('.', '', 1)`: remove the first dot, if any. -/
def removeFirstDot (s : String) : String :=
  match s.data.splitOn '.' with
  | [] => s
  | [_] => s
  | a :: b :: rest => ⟨a ++ b ++ (rest.map (fun l => '.' :: l)).flatten⟩

/-- `float(s)` for a decimal-point string whose dot-free form is all digits. -/
def parseFloat (s : String) : Rat :=
  match s.data.splitOn '.' with
  | [a, b] => (strToNat ⟨a⟩ : Rat) + (strToNat ⟨b⟩ : Rat) / ((10 : Rat) ^ b.length)
  | _ => (strToNat s : Rat)

/-- The type coercion `resolve_fact` applies to a rendered parameter value
(`facts/taxonomy.py` lines 141-144): all-digits becomes `int`, digits with
one dot becomes `float`, anything else stays a string. -/
def coerceRendered (val : String) : Value :=
  if isdigitStr val then .vint (strToNat val)
  else if isdigitStr (removeFirstDot val) then .vnum (parseFloat val)
  else .vstr val

/-! ## Data model (`facts/models.py`, `facts/taxonomy.py`) -/

/-- The provenance payload `resolve_fact` attaches to an instance
(`facts/taxonomy.py` lines 187-191): persisted dependency instance ids and
the normalized input context.  The wall-clock `timestamp` field is not
modelled. -/
structure Provenance where
  dependency_instance_ids : List Nat := []
  input_context : Value := .vdict []

/-- A `FactInstance` row (`facts/models.py` lines 99-130).  `id` is the
database primary key (`none` while unsaved), `fact_version` the foreign key
to a `FactDefinitionVersion` (`none` on ephemeral instances).  Field defaults
mirror the Django field defaults. -/
structure FactInstance where
  id : Option Nat := none
  fact_version : Option Nat := none
  context : Value := .vdict []
  context_hash : String := ""
  value : Option Value := none
  status : String := "success"
  error : Option String := none
  provenance : Provenance := {}

/-- Dependency values handed to a producer: dependency fact id to the
instance's value (which may be null). -/
abbrev DepValues := List (String × Option Value)

/-- The semantics of a fact's logic: `(deps, context) -> value`, raising
modelled as `Except.error`.  A dynamic producer's Python source text
(compiled by `create_dynamic_producer` and run by `safe_execute`) is embedded
by this input/output behaviour. -/
abbrev Producer := DepValues → Ctx → Except String Value

/-- `DependencyEdge` of `facts/taxonomy.py` lines 25-29. -/
structure DependencyEdge where
  to_fact_id : String
  param_mapping : List (String × Tmpl) := []
  condition : Option Expr := none

/-- `FactSpec` of `facts/taxonomy.py` lines 31-42.  `version_obj` is the
version's primary key. -/
structure FactSpec where
  id : String
  kind : String := "computed"
  data_type : String := "scalar"
  requires : List String := []
  dependencies : List DependencyEdge := []
  producer : Option Producer := none
  description : String := ""
  parameters_schema : Option Schema := none
  output_template : Option String := none
  version_obj : Option Nat := none

/-- `FactRegistry` of `facts/taxonomy.py` lines 44-55: a dict from fact id to
spec, in insertion order. -/
structure FactRegistry where
  specs : List (String × FactSpec) := []

/-- `FactRegistry.register`: dict assignment `self._specs[spec.id] = spec`. -/
def FactRegistry.register (reg : FactRegistry) (spec : FactSpec) : FactRegistry :=
  if (reg.specs.lookup spec.id).isSome then
    { specs := reg.specs.map fun p => if p.1 = spec.id then (spec.id, spec) else p }
  else { specs := reg.specs ++ [(spec.id, spec)] }

/-- `FactRegistry.spec`: `self._specs.get(fact_id)`. -/
def FactRegistry.spec (reg : FactRegistry) (fact_id : String) : Option FactSpec :=
  reg.specs.lookup fact_id

/-- Dict assignment `m[k] = v` on an association list: overwrite in place if
the key is present, append otherwise. -/
def assocSet {α : Type} (m : List (String × α)) (k : String) (v : α) : List (String × α) :=
  if (m.lookup k).isSome then
    m.map fun p => if p.1 = k then (k, v) else p
  else m ++ [(k, v)]

/-- The mutable world a resolution runs in: the per-request `FactStore`
(keyed by `"fact_id:ctx_hash"`), the persistent `FactInstance` table, the
`FactInstanceDependency` table as `(parent id, dependency id, dependency fact
id)` rows, and the next primary key.  `callLog`/`execLog` are observation
instrumentation: `callLog` records each entry into `resolve_fact` as
`(fact_id, ctx_hash)`, `execLog` each execution of a fact's logic — they are
read by no definition, only appended to. -/
structure ResState where
  store : List (String × FactInstance) := []
  db : List FactInstance := []
  dbDeps : List (Nat × Nat × String) := []
  nextId : Nat := 0
  callLog : List (String × String) := []
  execLog : List String := []

/-- The persistent-cache lookup of `resolve_fact` lines 106-114:
`FactInstance.objects.filter(fact_version=…, context_hash=…,
status='success').first()`. -/
def dbFindSuccess (db : List FactInstance) (ver : Nat) (h : String) : Option FactInstance :=
  db.find? fun i =>
    i.fact_version == some ver && i.context_hash == h && i.status == "success"

/-- The `get_or_create` lookup keyed by `(fact_version, context_hash)` alone
(`facts/taxonomy.py` lines 217-219): any status matches. -/
def dbFindByKey (db : List FactInstance) (ver : Nat) (h : String) : Option FactInstance :=
  db.find? fun i => i.fact_version == some ver && i.context_hash == h

/-- The exceptions `resolve_fact` can raise: `ValueError` for an
unregistered fact id (line 88), `RuntimeError` for an error-status outcome
(line 255).  `outOfFuel` is the embedding's recursion bound, never produced
on any run whose recursion depth the fuel covers. -/
inductive RErr where
  | notRegistered : String → RErr
  | runtime : String → RErr
  | outOfFuel : RErr

/-- The dependency-value hydration of `resolve_fact` lines 152-163: a
dependency of `dataframe` data type whose stored value is a list of records
is reconstructed as a table (`pd.DataFrame(val)`).  The tabular value is
modelled by its canonical list-of-records form, so reconstruction is the
identity on the representation; the branch structure mirrors the source. -/
def hydrateDepValue (reg : FactRegistry) (k : String) (v : Option Value) : Option Value :=
  match v with
  | none => none
  | some val =>
    match reg.spec k with
    | some dep_spec =>
      if dep_spec.data_type = "dataframe" then
        match val with
        | .vlist rows => some (.vlist rows)
        | _ => some val
      else some val
    | none => some val

/-- One resolver-loop accumulator: the dependency instances gathered so far
(or the first propagating exception) and the world state. -/
abbrev DepAcc := Except RErr (List (String × FactInstance)) × ResState

/-- One iteration of the flat-`requires` loop (`facts/taxonomy.py` lines
120-121): resolve the dependency with the same context; an exception
propagates, abandoning the loop. -/
def requiresStep (r : String → Ctx → ResState → Except RErr FactInstance × ResState)
    (context : Ctx) (acc : DepAcc) (dep_id : String) : DepAcc :=
  match acc with
  | (.error e, st) => (.error e, st)
  | (.ok insts, st) =>
    match r dep_id context st with
    | (.error e, st') => (.error e, st')
    | (.ok inst, st') => (.ok (insts ++ [(dep_id, inst)]), st')

/-- Whether a structured edge is skipped (`facts/taxonomy.py` lines
126-131): a present condition that evaluates non-truthy, or whose
evaluation raises, skips the edge. -/
def edgeSkipped (edge : DependencyEdge) (context : Ctx) : Bool :=
  match edge.condition with
  | none => false
  | some cond =>
    match execute_expression cond context with
    | .ok v => !truthy v
    | .error _ => true

/-- The derived context for a structured edge (`facts/taxonomy.py` lines
133-147): copy the parent context, then assign each mapped key the rendered,
type-coerced value of its template against the parent context. -/
def mappedContext (edge : DependencyEdge) (context : Ctx) : Ctx :=
  edge.param_mapping.foldl
    (fun ctx' m => assocSet ctx' m.1 (coerceRendered (renderTmpl m.2 context)))
    context

/-- One iteration of the structured-dependencies loop (`facts/taxonomy.py`
lines 124-149): a skipped edge contributes nothing; otherwise its target is
resolved under the mapped context. -/
def edgeStep (r : String → Ctx → ResState → Except RErr FactInstance × ResState)
    (context : Ctx) (acc : DepAcc) (edge : DependencyEdge) : DepAcc :=
  match acc with
  | (.error e, st) => (.error e, st)
  | (.ok insts, st) =>
    if edgeSkipped edge context then (.ok insts, st)
    else
      match r edge.to_fact_id (mappedContext edge context) st with
      | (.error e, st') => (.error e, st')
      | (.ok inst, st') => (.ok (insts ++ [(edge.to_fact_id, inst)]), st')

/-- The tail of `resolve_fact` after both dependency loops succeeded
(`facts/taxonomy.py` lines 151-257): collect the dependency instances into
the dict `dep_instances` (later assignments overwrite earlier ones, as dict
assignment does), hydrate their values, execute the producer (every
exception converted to error status; `execLog` records the execution),
build provenance, persist under get-or-create for a versioned spec — the
`IntegrityError` re-fetch branch of lines 237-242 is unreachable in this
sequential model, where the lookup and the insert are one step — link
provenance edges only for a newly created row, memoize in the store, and
raise `RuntimeError` on error status.  Dehydration of a tabular value
(lines 194-213) is the identity on the modelled list-of-records form. -/
def executeAndPersist (reg : FactRegistry) (spec : FactSpec) (fact_id : String)
    (context : Ctx) (ctx_hash store_key : String)
    (allInsts : List (String × FactInstance)) (st3 : ResState) :
    Except RErr FactInstance × ResState :=
  let dep_instances : List (String × FactInstance) :=
    allInsts.foldl (fun m p => assocSet m p.1 p.2) []
  let dep_values : DepValues :=
    dep_instances.map fun p => (p.1, hydrateDepValue reg p.1 p.2.value)
  let (execResult, st4) :=
    match spec.producer with
    | none =>
      ((.error ("Fact " ++ fact_id ++ " has no producer") : Except String Value), st3)
    | some p => (p dep_values context, { st3 with execLog := st3.execLog ++ [fact_id] })
  let outcome : Option Value × String × Option String :=
    match execResult with
    | .ok v => (some v, "success", none)
    | .error e => (none, "error", some e)
  let provenance : Provenance :=
    { dependency_instance_ids := dep_instances.filterMap fun p => p.2.id,
      input_context := normalize_context (.vdict context) }
  let (instRow, st5) :=
    match spec.version_obj with
    | some ver =>
      match dbFindByKey st4.db ver ctx_hash with
      | some existing => (existing, st4)
      | none =>
        let newInst : FactInstance :=
          { id := some st4.nextId, fact_version := some ver,
            context := normalize_context (.vdict context),
            context_hash := ctx_hash, value := outcome.1,
            status := outcome.2.1, error := outcome.2.2,
            provenance := provenance }
        let newDeps : List (Nat × Nat × String) :=
          dep_instances.filterMap fun (p : String × FactInstance) =>
            p.2.id.map fun i => (st4.nextId, i, p.1)
        (newInst,
          { st4 with db := st4.db ++ [newInst],
                     dbDeps := st4.dbDeps ++ newDeps,
                     nextId := st4.nextId + 1 })
    | none =>
      (({ value := outcome.1, status := outcome.2.1, error := outcome.2.2,
          provenance := provenance } : FactInstance), st4)
  let st6 : ResState := { st5 with store := assocSet st5.store store_key instRow }
  if outcome.2.1 = "error" then
    (.error (.runtime ("Error computing " ++ fact_id ++ ": " ++ (outcome.2.2.getD "None"))), st6)
  else (.ok instRow, st6)

/-- `resolve_fact` of `facts/taxonomy.py` lines 70-257, embedded with
explicit world-state passing and a recursion fuel (the dependency graph is
statically acyclic in any registry `build_taxonomy` serves, so every run is
reached at some finite fuel; fuel exhaustion is the distinguished
`RErr.outOfFuel`).  Step by step: per-request store lookup; registry lookup
(raising `ValueError` when absent); schema validation, a failure producing a
stored-but-unpersisted error-status instance that is returned, not raised;
the persistent-cache lookup restricted to success status; the flat and
structured dependency loops; hydration; producer execution with every
exception converted to an error status; persistence via get-or-create with
provenance rows linked only for a newly created row; store memoization; and
the final raise on error status. -/
def resolve_fact (fuel : Nat) (reg : FactRegistry) (fact_id : String) (context : Ctx)
    (st : ResState) : Except RErr FactInstance × ResState :=
  match fuel with
  | 0 => (.error .outOfFuel, st)
  | fuel' + 1 =>
    let ctx_hash := hash_context context
    let store_key := fact_id ++ ":" ++ ctx_hash
    let st1 : ResState := { st with callLog := st.callLog ++ [(fact_id, ctx_hash)] }
    match st1.store.lookup store_key with
    | some inst => (.ok inst, st1)
    | none =>
      match reg.spec fact_id with
      | none => (.error (.notRegistered fact_id), st1)
      | some spec =>
        let valError : Option String :=
          match spec.parameters_schema with
          | none => none
          | some schema =>
            match validate_context context schema with
            | .ok _ => none
            | .error msg => some msg
        match valError with
        | some msg =>
          let inst : FactInstance :=
            { status := "error", error := some msg,
              context := normalize_context (.vdict context), context_hash := ctx_hash }
          (.ok inst, { st1 with store := assocSet st1.store store_key inst })
        | none =>
          let cached : Option FactInstance :=
            match spec.version_obj with
            | some ver => dbFindSuccess st1.db ver ctx_hash
            | none => none
          match cached with
          | some inst => (.ok inst, { st1 with store := assocSet st1.store store_key inst })
          | none =>
            match spec.requires.foldl (requiresStep (resolve_fact fuel' reg) context) (.ok [], st1) with
            | (.error e, st2) => (.error e, st2)
            | (.ok reqInsts, st2) =>
              match spec.dependencies.foldl (edgeStep (resolve_fact fuel' reg) context) (.ok reqInsts, st2) with
              | (.error e, st3) => (.error e, st3)
              | (.ok allInsts, st3) =>
                executeAndPersist reg spec fact_id context ctx_hash store_key allInsts st3
termination_by structural fuel

/-! ## Sandboxed execution layer (`facts/taxonomy.py` lines 342-402) -/

/-- The intrinsic behaviour of one invocation of a dynamic logic body:
return a value, raise an exception, or never terminate (e.g. a
`while True: pass` loop). -/
inductive LogicBehavior where
  | returns : Value → LogicBehavior
  | raises : String → LogicBehavior
  | diverges : LogicBehavior

/-- What a call into the execution layer can be observed to do: produce a
value, surface an exception, or surface the distinct timed-out failure. -/
inductive ExecOutcome where
  | value : Value → ExecOutcome
  | raised : String → ExecOutcome
  | timedOut : ExecOutcome

/-- `safe_execute` of `facts/taxonomy.py` observed at the execution layer.
Its docstring reads "Executes the producer directly in the current process
(INSECURE for untrusted code). Modified to avoid multiprocessing issues
during debugging", and its body runs the compiled logic inline: the
`timeout` parameter (default `5`) is accepted and never read, and no
branch terminates a running logic.  So a returning logic yields its value,
a raising logic yields the wrapped `RuntimeError` message, and a diverging
logic never yields an observation at all (`none`: the call blocks the
caller forever).  `some .timedOut` would be the observation of a distinct
timed-out failure; no branch of the source produces one. -/
def safe_execute_observe (behavior : LogicBehavior) (timeout : Nat) : Option ExecOutcome :=
  match behavior, timeout with
  | .returns v, _ => some (.value v)
  | .raises msg, _ => some (.raised ("Error executing fact logic: " ++ msg))
  | .diverges, _ => none

/-- Whether an observation is the distinct timed-out failure. -/
def isTimedOut : Option ExecOutcome → Bool
  | some .timedOut => true
  | _ => false

/-- Whether an observation returned a value. -/
def isValueOutcome : Option ExecOutcome → Bool
  | some (.value _) => true
  | _ => false

/-! ## Intent router (`facts/router.py`) -/

/-- One loaded recognizer (`IntentRouter._load_recognizers`): the approved
version's primary key, the compiled regex patterns — each embedded by its
search semantics, text to the named-capture-group dict of the first match,
if any — plus keywords and example questions. -/
structure Recognizer where
  version : Nat
  regex : List (String → Option (List (String × String))) := []
  keywords : List String := []
  examples : List String := []

/-- ASCII lowercasing of one character (`str.lower` on the character sets
used by keywords and questions). -/
def charLower (c : Char) : Char :=
  if 65 ≤ c.toNat ∧ c.toNat ≤ 90 then Char.ofNat (c.toNat + 32) else c

/-- Python `str.lower` (ASCII range). -/
def strLower (s : String) : String := ⟨s.data.map charLower⟩

/-- `cs` starts with `ps`. -/
def startsWithChars : List Char → List Char → Bool
  | [], _ => true
  | _ :: _, [] => false
  | p :: ps, c :: cs => p == c && startsWithChars ps cs

/-- `needle` occurs as a contiguous run of `hay`. -/
def hasSubstrChars (needle : List Char) : List Char → Bool
  | [] => needle.isEmpty
  | c :: cs => startsWithChars needle (c :: cs) || hasSubstrChars needle cs

/-- Python `needle in hay` on strings (substring containment). -/
def strContains (hay needle : String) : Bool :=
  hasSubstrChars needle.data hay.data

/-- `process.extractOne(text, examples, scorer=…)` of rapidfuzz: the best
score of `text` against the examples under the scorer `fz`, `none` for an
empty example list.  rapidfuzz's `token_sort_ratio` scorer is an external
collaborator, modelled as the function parameter `fz` into the 0-100 score
range. -/
def extractOneScore (fz : String → String → Rat) (text : String) :
    List String → Option Rat
  | [] => none
  | e :: rest => some ((rest.map (fz text)).foldl max (fz text e))

/-- The per-recognizer score of the router's scored stage
(`facts/router.py` lines 57-76): starting from zero, the fuzzy best-match
score (when the rapidfuzz import succeeded and examples exist) and then the
keyword score `(keywords_found / len(keywords)) * 90` each replace the
running score when greater. -/
def recognizerScore (fz : Option (String → String → Rat)) (text : String)
    (r : Recognizer) : Rat :=
  let score0 : Rat := 0
  let score1 : Rat :=
    match fz with
    | some f =>
      if r.examples.isEmpty then score0
      else
        match extractOneScore f text r.examples with
        | some fuzzy_score => if fuzzy_score > score0 then fuzzy_score else score0
        | none => score0
    | none => score0
  if !r.keywords.isEmpty then
    let keywords_found :=
      (r.keywords.filter fun k => strContains (strLower text) (strLower k)).length
    let keyword_score : Rat := ((keywords_found : Rat) / (r.keywords.length : Rat)) * 90
    if keyword_score > score1 then keyword_score else score1
  else score1

/-- The pattern stage (`facts/router.py` lines 45-51): recognizers in
registration order, each recognizer's patterns in order; the first match
returns that version with the named capture groups as the context. -/
def regexStage (recs : List Recognizer) (text : String) :
    Option (Option Nat × List (String × String)) :=
  recs.findSome? fun item =>
    item.regex.findSome? fun pattern =>
      (pattern text).map fun groups => (some item.version, groups)

/-- The scored stage's best-candidate fold (`facts/router.py` lines 54-80):
a recognizer replaces the running best only when its score strictly exceeds
both the running best and the fixed threshold 60. -/
def scoredStage (fz : Option (String → String → Rat)) (recs : List Recognizer)
    (text : String) : Option Nat :=
  (recs.foldl
    (fun (best : Rat × Option Nat) item =>
      let score := recognizerScore fz text item
      if score > best.1 ∧ score > 60 then (score, some item.version) else best)
    (0, none)).2

/-- `IntentRouter.route` of `facts/router.py`: the pattern stage first, then
the scored stage with an empty extracted context, then `(None, {})`. -/
def route (fz : Option (String → String → Rat)) (recs : List Recognizer)
    (text : String) : Option Nat × List (String × String) :=
  match regexStage recs text with
  | some res => res
  | none =>
    match scoredStage fz recs text with
    | some best_version => (some best_version, [])
    | none => (none, [])

/-! ## Registry construction (`facts/taxonomy.py` lines 273-318) -/

/-- `build_dependency_graph` of `facts/graph.py` over a registry: the
id/`requires` association of its specs in registration order. -/
def build_dependency_graph (reg : FactRegistry) : Graph :=
  buildGraphFrom (reg.specs.map fun p => (p.1, p.2.requires))

/-- A `FactDefinition` row, as `build_taxonomy` reads it. -/
structure FactDefinitionRec where
  id : String
  description : String := ""
  data_type : String := "scalar"
  is_active : Bool := true

/-- One entry of a version's `dependencies` JSON list: the dict
`\x7b"id": …, "with": …, "when": …\x7d` parsed by `build_taxonomy` lines
290-296. -/
structure RawDependency where
  depId : String
  withMapping : List (String × Tmpl) := []
  whenCond : Option Expr := none

/-- A `FactDefinitionVersion` row as `build_taxonomy` reads it; `pk` is the
row's primary key and `code` the semantics of the stored logic source (what
`create_dynamic_producer`'s wrapper executes under `safe_execute`). -/
structure FactDefinitionVersionRec where
  fact_definition : String
  version : Nat
  status : String := "draft"
  requires : List String := []
  dependencies : List RawDependency := []
  parameters_schema : Option Schema := none
  output_template : Option String := none
  code : Producer
  pk : Nat

/-- `defn.versions.filter(status='approved').order_by('-version').first()`:
the approved version with the greatest version number. -/
def latestApproved (versions : List FactDefinitionVersionRec) (defnId : String) :
    Option FactDefinitionVersionRec :=
  (versions.filter fun v => v.fact_definition == defnId && v.status == "approved").foldl
    (fun acc v =>
      match acc with
      | none => some v
      | some b => if v.version > b.version then some v else some b)
    none

/-- The registry-assembly loop of `build_taxonomy` (`facts/taxonomy.py`
lines 273-310) over the persisted definitions and versions: register a spec
for each active definition with an approved version
(`create_dynamic_producer` always yields a callable, so every such
definition registers). -/
def buildTaxonomyRegistry (defs : List FactDefinitionRec)
    (versions : List FactDefinitionVersionRec) : FactRegistry :=
  defs.foldl
    (fun reg defn =>
      if !defn.is_active then reg
      else
        match latestApproved versions defn.id with
        | none => reg
        | some version =>
          let structured_deps : List DependencyEdge :=
            version.dependencies.map fun d =>
              { to_fact_id := d.depId, param_mapping := d.withMapping,
                condition := d.whenCond }
          reg.register
            { id := defn.id, kind := "computed", data_type := defn.data_type,
              requires := version.requires, dependencies := structured_deps,
              producer := some version.code, description := defn.description,
              parameters_schema := version.parameters_schema,
              output_template := version.output_template,
              version_obj := some version.pk })
    {}

/-- The cycle gate of `build_taxonomy` (`facts/taxonomy.py` lines 312-316):
fail with `ValueError` when `detect_cycles` reports any cycle, otherwise
serve the registry. -/
def build_taxonomy (defs : List FactDefinitionRec)
    (versions : List FactDefinitionVersionRec) : Except String FactRegistry :=
  let reg := buildTaxonomyRegistry defs versions
  if (detect_cycles (build_dependency_graph reg)).isEmpty then .ok reg
  else .error "Cycle detected in fact dependencies"

/-! ## Invariants, relations and scenario data for the claims -/

/-- At most one db row per (fact_version, context_hash). -/
def dbKeyUnique (db : List FactInstance) : Prop :=
  db.Pairwise fun a b => ¬(a.fact_version = b.fact_version ∧ a.context_hash = b.context_hash)
/-- Two values are semantically identical up to dict key ordering (generated
by adjacent transpositions of distinct keys at any nesting level),
date-object vs ISO-string representation, and Decimal vs float
representation of the same value. -/
inductive SemVar : Value → Value → Prop where
  | refl (v : Value) : SemVar v v
  | dateIso (y m d : Nat) : SemVar (.vdate y m d) (.vstr (isoDate y m d))
  | isoDate (y m d : Nat) : SemVar (.vstr (isoDate y m d)) (.vdate y m d)
  | decNum (q : Rat) : SemVar (.vdec q) (.vnum q)
  | numDec (q : Rat) : SemVar (.vnum q) (.vdec q)
  | listCons (x y : Value) (xs ys : List Value) :
      SemVar x y → SemVar (.vlist xs) (.vlist ys) →
      SemVar (.vlist (x :: xs)) (.vlist (y :: ys))
  | dictCons (k : String) (v w : Value) (fs gs : List (String × Value)) :
      SemVar v w → SemVar (.vdict fs) (.vdict gs) →
      SemVar (.vdict ((k, v) :: fs)) (.vdict ((k, w) :: gs))
  | dictSwap (k1 k2 : String) (v1 v2 : Value) (fs : List (String × Value)) :
      k1 ≠ k2 →
      SemVar (.vdict ((k1, v1) :: (k2, v2) :: fs)) (.vdict ((k2, v2) :: (k1, v1) :: fs))
  | trans (a b c : Value) : SemVar a b → SemVar b c → SemVar a c
/-- The canonical form underlying `hash_context`. -/
def canonValue (v : Value) : Value := deepSort (normalize_context v)
/-- `b` is `a` with one transient-keyed entry inserted somewhere, at any
nesting level. -/
inductive AddTransient : Value → Value → Prop where
  | here (fs1 fs2 : List (String × Value)) (k : String) (w : Value)
      (hk : k ∈ transientKeys) :
      AddTransient (.vdict (fs1 ++ fs2)) (.vdict (fs1 ++ (k, w) :: fs2))
  | inDict (k : String) (v v' : Value) (fs1 fs2 : List (String × Value)) :
      AddTransient v v' →
      AddTransient (.vdict (fs1 ++ (k, v) :: fs2)) (.vdict (fs1 ++ (k, v') :: fs2))
  | inList (v v' : Value) (xs1 xs2 : List Value) :
      AddTransient v v' →
      AddTransient (.vlist (xs1 ++ v :: xs2)) (.vlist (xs1 ++ v' :: xs2))
/-- A producer that always raises. -/
def errorProducer : Producer := fun _ _ => .error "boom"
/-- A registry with the single versioned fact `X` whose logic raises. -/
def c6Reg : FactRegistry :=
  FactRegistry.register {} { id := "X", producer := some errorProducer, version_obj := some 7 }
def c6First := resolve_fact 1 c6Reg "X" [] {}
def c6Second := resolve_fact 1 c6Reg "X" [] { c6First.2 with store := [] }
def c1Spec : FactSpec :=
  { id := "A", producer := some (fun _ _ => .ok (.vint 1)), version_obj := some 1 }
def c1Reg : FactRegistry := FactRegistry.register {} c1Spec
def c1Inst : FactInstance :=
  { id := some 0, fact_version := some 1, context_hash := hash_context [],
    status := "success", value := some (.vint 20) }
def c1St : ResState := { db := [c1Inst] }
def c5Schema : Schema := { required := ["x"], properties := [] }
def c5Spec : FactSpec :=
  { id := "V", requires := ["A"], producer := some (fun _ _ => .ok (.vint 1)),
    version_obj := some 3, parameters_schema := some c5Schema }
def c5Reg : FactRegistry := FactRegistry.register (FactRegistry.register {} c1Spec) c5Spec
def c10Inst : FactInstance :=
  { id := some 0, fact_version := some 7, context := .vdict [],
    context_hash := hash_context [], value := none, status := "error",
    error := some "boom",
    provenance := { dependency_instance_ids := [], input_context := .vdict [] } }
def c3Spec : FactSpec :=
  { id := "A", dependencies := [{ to_fact_id := "B" }],
    producer := some (fun _ _ => .ok .vnull) }
def c3Reg : FactRegistry := FactRegistry.register {} c3Spec
def c9Rec : Recognizer :=
  { version := 42, keywords := ["alpha", "beta", "gamma"], examples := [] }
def zeroFuzz : String → String → Rat := fun _ _ => 0
def c7Producer : Producer := fun _ _ => .ok (.vint 0)
def c7Defs : List FactDefinitionRec := [{ id := "A" }, { id := "B" }, { id := "C" }]
def c7Versions : List FactDefinitionVersionRec :=
  [{ fact_definition := "A", version := 1, status := "approved", requires := ["B"],
     code := c7Producer, pk := 1 },
   { fact_definition := "B", version := 1, status := "approved", requires := ["C"],
     code := c7Producer, pk := 2 },
   { fact_definition := "C", version := 1, status := "approved", requires := ["A"],
     code := c7Producer, pk := 3 }]
def c7DefsAB : List FactDefinitionRec := [{ id := "A" }, { id := "B" }]
def c7VersionsAB : List FactDefinitionVersionRec :=
  [{ fact_definition := "A", version := 1, status := "approved", requires := ["B"],
     code := c7Producer, pk := 1 },
   { fact_definition := "B", version := 1, status := "approved", requires := [],
     code := c7Producer, pk := 2 }]

/-! ## Supporting lemmas: the resolution engine -/

theorem executeAndPersist_db_cases (reg : FactRegistry) (spec : FactSpec) (fact_id : String)
    (context : Ctx) (ctx_hash store_key : String)
    (allInsts : List (String × FactInstance)) (st3 : ResState) :
    (executeAndPersist reg spec fact_id context ctx_hash store_key allInsts st3).2.db = st3.db ∨
    (∃ ver row, spec.version_obj = some ver ∧ dbFindByKey st3.db ver ctx_hash = none ∧
      row.fact_version = some ver ∧ row.context_hash = ctx_hash ∧
      (executeAndPersist reg spec fact_id context ctx_hash store_key allInsts st3).2.db
        = st3.db ++ [row]) := by
  unfold executeAndPersist
  cases hp : spec.producer <;> simp only [hp] <;>
    cases hv : spec.version_obj <;> simp only [hv] 
  case none.none =>
    split <;> exact Or.inl rfl
  case none.some ver =>
    cases hf : dbFindByKey st3.db ver ctx_hash <;> simp only [hf] 
    case none =>
      split <;> exact Or.inr ⟨ver, _, rfl, hf, rfl, rfl, rfl⟩
    case some existing =>
      split <;> exact Or.inl rfl
  case some.none =>
    split <;> exact Or.inl rfl
  case some.some p ver =>
    cases hf : dbFindByKey st3.db ver ctx_hash <;> simp only [hf] 
    case none =>
      split <;> exact Or.inr ⟨ver, _, rfl, hf, rfl, rfl, rfl⟩
    case some existing =>
      split <;> exact Or.inl rfl
theorem dbKeyUnique_append (db : List FactInstance) (row : FactInstance) (ver : Nat)
    (h : dbKeyUnique db) (hfind : dbFindByKey db ver row.context_hash = none)
    (hver : row.fact_version = some ver) :
    dbKeyUnique (db ++ [row]) := by
  rw [dbKeyUnique, List.pairwise_append]
  refine ⟨h, List.pairwise_singleton _ _, ?_⟩
  intro a ha b hb
  simp only [List.mem_singleton] at hb
  subst hb
  rw [dbFindByKey, List.find?_eq_none] at hfind
  have := hfind a ha
  simp only [Bool.and_eq_true, beq_iff_eq] at this
  intro ⟨h1, h2⟩
  exact this ⟨h1.trans hver, h2⟩
theorem foldl_preserves {α β : Type} {P : β → Prop} {f : β → α → β}
    (hf : ∀ b a, P b → P (f b a)) :
    ∀ (l : List α) (b : β), P b → P (l.foldl f b) := by
  intro l
  induction l with
  | nil => exact fun b hb => hb
  | cons x xs ih => exact fun b hb => ih (f b x) (hf b x hb)
theorem executeAndPersist_unique (reg : FactRegistry) (spec : FactSpec) (fact_id : String)
    (context : Ctx) (ctx_hash store_key : String)
    (allInsts : List (String × FactInstance)) (st3 : ResState)
    (h : dbKeyUnique st3.db) :
    dbKeyUnique (executeAndPersist reg spec fact_id context ctx_hash store_key allInsts st3).2.db := by
  rcases executeAndPersist_db_cases reg spec fact_id context ctx_hash store_key allInsts st3 with
    heq | ⟨ver, row, _, hfind, hver, hhash, heq⟩
  · rw [heq]; exact h
  · rw [heq]; exact dbKeyUnique_append st3.db row ver h (hhash ▸ hfind) hver
theorem resolve_fact_unique :
    ∀ (fuel : Nat) (reg : FactRegistry) (fact_id : String) (context : Ctx) (st : ResState),
      dbKeyUnique st.db → dbKeyUnique (resolve_fact fuel reg fact_id context st).2.db := by
  intro fuel
  induction fuel with
  | zero =>
    intro reg fact_id context st h
    simpa only [resolve_fact] using h
  | succ fuel' ih =>
    intro reg fact_id context st h
    unfold resolve_fact
    cases hs : (st.store.lookup (fact_id ++ ":" ++ hash_context context)) <;> simp only [hs]
    case some inst => exact h
    case none =>
    cases hr : reg.spec fact_id <;> simp only [hr]
    case none => exact h
    case some spec =>
    have hP : ∀ (acc : DepAcc), dbKeyUnique acc.2.db →
        dbKeyUnique ((spec.requires.foldl
          (requiresStep (resolve_fact fuel' reg) context) acc).2.db) := by
      intro acc hacc
      refine foldl_preserves (P := fun acc : DepAcc => dbKeyUnique acc.2.db) ?_ spec.requires acc hacc
      intro b a hb
      unfold requiresStep
      rcases b with ⟨res, stb⟩
      cases res with
      | error e => exact hb
      | ok insts =>
        dsimp only
        rcases hrf : resolve_fact fuel' reg a context stb with ⟨r, st'⟩
        have hu := ih reg a context stb hb
        rw [hrf] at hu
        cases r <;> simpa using hu
    have hQ : ∀ (acc : DepAcc), dbKeyUnique acc.2.db →
        dbKeyUnique ((spec.dependencies.foldl
          (edgeStep (resolve_fact fuel' reg) context) acc).2.db) := by
      intro acc hacc
      refine foldl_preserves (P := fun acc : DepAcc => dbKeyUnique acc.2.db) ?_ spec.dependencies acc hacc
      intro b a hb
      unfold edgeStep
      rcases b with ⟨res, stb⟩
      cases res with
      | error e => exact hb
      | ok insts =>
        dsimp only
        by_cases hsk : edgeSkipped a context
        · simpa [hsk] using hb
        · rw [if_neg hsk]
          rcases hrf : resolve_fact fuel' reg a.to_fact_id (mappedContext a context) stb with ⟨r, st'⟩
          have hu := ih reg a.to_fact_id (mappedContext a context) stb hb
          rw [hrf] at hu
          cases r <;> simpa using hu
    split
    case h_1 msg heq => exact h
    case h_2 hval =>
    cases hv : spec.version_obj <;> simp only [hv]
    case some ver =>
      cases hcs : dbFindSuccess st.db ver (hash_context context) <;> simp only [hcs]
      case some inst => exact h
      case none =>
        rcases hfold : spec.requires.foldl (requiresStep (resolve_fact fuel' reg) context)
            (.ok [], { st with callLog := st.callLog ++ [(fact_id, hash_context context)] }) with ⟨res2, st2⟩
        have h2 : dbKeyUnique st2.db := by
          have hu := hP (.ok [], { st with callLog := st.callLog ++ [(fact_id, hash_context context)] }) h
          rw [hfold] at hu
          exact hu
        try simp only [hfold]
        cases res2 with
        | error e => exact h2
        | ok reqInsts =>
        rcases hfold2 : spec.dependencies.foldl (edgeStep (resolve_fact fuel' reg) context)
            (.ok reqInsts, st2) with ⟨res3, st3⟩
        have h3 : dbKeyUnique st3.db := by
          have hu := hQ (.ok reqInsts, st2) h2
          rw [hfold2] at hu
          exact hu
        try simp only [hfold2]
        cases res3 with
        | error e => exact h3
        | ok allInsts =>
          exact executeAndPersist_unique reg spec fact_id context
            (hash_context context) (fact_id ++ ":" ++ hash_context context) allInsts st3 h3
    case none =>
      rcases hfold : spec.requires.foldl (requiresStep (resolve_fact fuel' reg) context)
          (.ok [], { st with callLog := st.callLog ++ [(fact_id, hash_context context)] }) with ⟨res2, st2⟩
      have h2 : dbKeyUnique st2.db := by
        have hu := hP (.ok [], { st with callLog := st.callLog ++ [(fact_id, hash_context context)] }) h
        rw [hfold] at hu
        exact hu
      try simp only [hfold]
      cases res2 with
      | error e => exact h2
      | ok reqInsts =>
      rcases hfold2 : spec.dependencies.foldl (edgeStep (resolve_fact fuel' reg) context)
          (.ok reqInsts, st2) with ⟨res3, st3⟩
      have h3 : dbKeyUnique st3.db := by
        have hu := hQ (.ok reqInsts, st2) h2
        rw [hfold2] at hu
        exact hu
      try simp only [hfold2]
      cases res3 with
      | error e => exact h3
      | ok allInsts =>
        exact executeAndPersist_unique reg spec fact_id context
          (hash_context context) (fact_id ++ ":" ++ hash_context context) allInsts st3 h3
theorem resolve_fact_store_hit
    (fuel : Nat) (reg : FactRegistry) (fact_id : String) (context : Ctx)
    (st : ResState) (inst : FactInstance)
    (hstore : st.store.lookup (fact_id ++ ":" ++ hash_context context) = some inst) :
    resolve_fact (fuel + 1) reg fact_id context st =
      (.ok inst, { st with callLog := st.callLog ++ [(fact_id, hash_context context)] }) := by
  unfold resolve_fact
  simp only [hstore]
theorem resolve_fact_validation_error
    (fuel : Nat) (reg : FactRegistry) (fact_id : String) (context : Ctx)
    (st : ResState) (spec : FactSpec) (schema : Schema) (msg : String)
    (hstore : st.store.lookup (fact_id ++ ":" ++ hash_context context) = none)
    (hspec : reg.spec fact_id = some spec)
    (hschema : spec.parameters_schema = some schema)
    (hval : validate_context context schema = .error msg) :
    resolve_fact (fuel + 1) reg fact_id context st =
      (.ok { status := "error", error := some msg,
             context := normalize_context (.vdict context),
             context_hash := hash_context context },
       { st with
         callLog := st.callLog ++ [(fact_id, hash_context context)],
         store := assocSet st.store (fact_id ++ ":" ++ hash_context context)
           { status := "error", error := some msg,
             context := normalize_context (.vdict context),
             context_hash := hash_context context } }) := by
  unfold resolve_fact
  simp only [hstore, hspec, hschema, hval]
theorem resolve_fact_cache_hit
    (fuel : Nat) (reg : FactRegistry) (fact_id : String) (context : Ctx)
    (st : ResState) (spec : FactSpec) (ver : Nat) (inst : FactInstance)
    (hstore : st.store.lookup (fact_id ++ ":" ++ hash_context context) = none)
    (hspec : reg.spec fact_id = some spec)
    (hval : ∀ schema, spec.parameters_schema = some schema →
      validate_context context schema = .ok ())
    (hver : spec.version_obj = some ver)
    (hcache : dbFindSuccess st.db ver (hash_context context) = some inst) :
    resolve_fact (fuel + 1) reg fact_id context st =
      (.ok inst,
       { st with
         callLog := st.callLog ++ [(fact_id, hash_context context)],
         store := assocSet st.store (fact_id ++ ":" ++ hash_context context) inst }) := by
  unfold resolve_fact
  simp only [hstore, hspec, hver, hcache]
  cases hps : spec.parameters_schema with
  | none => simp
  | some schema => simp [hval schema hps]
theorem dbFindSuccess_none_of_byKey_none (db : List FactInstance) (ver : Nat) (h : String)
    (hbk : dbFindByKey db ver h = none) : dbFindSuccess db ver h = none := by
  rw [dbFindByKey, List.find?_eq_none] at hbk
  rw [dbFindSuccess, List.find?_eq_none]
  intro x hx
  have hb := hbk x hx
  intro hcontra
  apply hb
  revert hcontra
  simp only [Bool.and_eq_true]
  tauto
/-- First resolution of a no-dependency fact whose logic raises: the error
instance is persisted and the call raises. -/
theorem resolve_fact_exec_error
    (fuel : Nat) (reg : FactRegistry) (fact_id : String) (context : Ctx)
    (st : ResState) (spec : FactSpec) (p : Producer) (ver : Nat) (msg : String)
    (hstore : st.store.lookup (fact_id ++ ":" ++ hash_context context) = none)
    (hspec : reg.spec fact_id = some spec)
    (hval : spec.parameters_schema = none)
    (hreq : spec.requires = [])
    (hdep : spec.dependencies = [])
    (hprod : spec.producer = some p)
    (hver : spec.version_obj = some ver)
    (hperr : p [] context = .error msg)
    (hbk : dbFindByKey st.db ver (hash_context context) = none) :
    resolve_fact (fuel + 1) reg fact_id context st =
      (.error (.runtime ("Error computing " ++ fact_id ++ ": " ++ msg)),
       { st with
         callLog := st.callLog ++ [(fact_id, hash_context context)],
         execLog := st.execLog ++ [fact_id],
         db := st.db ++
           [{ id := some st.nextId, fact_version := some ver,
              context := normalize_context (.vdict context),
              context_hash := hash_context context,
              value := none, status := "error", error := some msg,
              provenance := { dependency_instance_ids := [],
                              input_context := normalize_context (.vdict context) } }],
         nextId := st.nextId + 1,
         store := assocSet st.store (fact_id ++ ":" ++ hash_context context)
           { id := some st.nextId, fact_version := some ver,
             context := normalize_context (.vdict context),
             context_hash := hash_context context,
             value := none, status := "error", error := some msg,
             provenance := { dependency_instance_ids := [],
                             input_context := normalize_context (.vdict context) } } }) := by
  have hsucc := dbFindSuccess_none_of_byKey_none st.db ver (hash_context context) hbk
  unfold resolve_fact
  simp only [hstore, hspec, hval, hver, hsucc, hreq, hdep, List.foldl_nil]
  unfold executeAndPersist
  simp only [hprod, hperr, hver, hbk, List.foldl_nil, List.filterMap_nil, List.map_nil,
    List.append_nil, Option.getD_some, if_true]
/-- A repeated identical request in a fresh store, with an error row already
persisted for the key: the logic runs again (the success-only cache lookup
misses), the existing row wins get-or-create, and the call raises again. -/
theorem resolve_fact_exec_error_repeat
    (fuel : Nat) (reg : FactRegistry) (fact_id : String) (context : Ctx)
    (st : ResState) (spec : FactSpec) (p : Producer) (ver : Nat) (msg : String)
    (existing : FactInstance)
    (hstore : st.store.lookup (fact_id ++ ":" ++ hash_context context) = none)
    (hspec : reg.spec fact_id = some spec)
    (hval : spec.parameters_schema = none)
    (hreq : spec.requires = [])
    (hdep : spec.dependencies = [])
    (hprod : spec.producer = some p)
    (hver : spec.version_obj = some ver)
    (hperr : p [] context = .error msg)
    (hsucc : dbFindSuccess st.db ver (hash_context context) = none)
    (hbk : dbFindByKey st.db ver (hash_context context) = some existing) :
    resolve_fact (fuel + 1) reg fact_id context st =
      (.error (.runtime ("Error computing " ++ fact_id ++ ": " ++ msg)),
       { st with
         callLog := st.callLog ++ [(fact_id, hash_context context)],
         execLog := st.execLog ++ [fact_id],
         store := assocSet st.store (fact_id ++ ":" ++ hash_context context) existing }) := by
  unfold resolve_fact
  simp only [hstore, hspec, hval, hver, hsucc, hreq, hdep, List.foldl_nil]
  unfold executeAndPersist
  simp only [hprod, hperr, hver, hbk, List.foldl_nil, List.filterMap_nil, List.map_nil,
    List.append_nil, Option.getD_some, if_true]
theorem edgeStep_skip (r : String → Ctx → ResState → Except RErr FactInstance × ResState)
    (context : Ctx) (acc : DepAcc) (edge : DependencyEdge)
    (h : edgeSkipped edge context = true) :
    edgeStep r context acc edge = acc := by
  unfold edgeStep
  rcases acc with ⟨res, st⟩
  cases res with
  | error e => rfl
  | ok insts => simp [h]
theorem foldl_edgeStep_skip (r : String → Ctx → ResState → Except RErr FactInstance × ResState)
    (context : Ctx) (acc : DepAcc) (edge : DependencyEdge) (rest : List DependencyEdge)
    (h : edgeSkipped edge context = true) :
    List.foldl (edgeStep r context) acc (edge :: rest)
      = List.foldl (edgeStep r context) acc rest := by
  rw [List.foldl_cons, edgeStep_skip r context acc edge h]
theorem edgeSkipped_of_falsy (edge : DependencyEdge) (context : Ctx) (cond : Expr)
    (hcond : edge.condition = some cond)
    (h : (∃ e, execute_expression cond context = .error e) ∨
         (∃ v, execute_expression cond context = .ok v ∧ truthy v = false)) :
    edgeSkipped edge context = true := by
  unfold edgeSkipped
  rw [hcond]
  dsimp only
  rcases h with ⟨e, he⟩ | ⟨v, hv, ht⟩
  · rw [he]
  · rw [hv]
    dsimp only
    rw [ht]
    rfl
/-- Resolution of a fact whose sole structured dependency is skipped and
whose logic succeeds on the empty dependency map. -/
theorem resolve_fact_skipped_edge_success
    (fuel : Nat) (reg : FactRegistry) (fact_id : String) (context : Ctx)
    (st : ResState) (spec : FactSpec) (p : Producer) (edge : DependencyEdge) (v : Value)
    (hstore : st.store.lookup (fact_id ++ ":" ++ hash_context context) = none)
    (hspec : reg.spec fact_id = some spec)
    (hval : spec.parameters_schema = none)
    (hreq : spec.requires = [])
    (hdep : spec.dependencies = [edge])
    (hskip : edgeSkipped edge context = true)
    (hprod : spec.producer = some p)
    (hver : spec.version_obj = none)
    (hok : p [] context = .ok v) :
    resolve_fact (fuel + 1) reg fact_id context st =
      (.ok { value := some v, status := "success", error := none,
             provenance := { dependency_instance_ids := [],
                             input_context := normalize_context (.vdict context) } },
       { st with
         callLog := st.callLog ++ [(fact_id, hash_context context)],
         execLog := st.execLog ++ [fact_id],
         store := assocSet st.store (fact_id ++ ":" ++ hash_context context)
           { value := some v, status := "success", error := none,
             provenance := { dependency_instance_ids := [],
                             input_context := normalize_context (.vdict context) } } }) := by
  unfold resolve_fact
  simp only [hstore, hspec, hval, hver, hreq, hdep, List.foldl_nil]
  rw [foldl_edgeStep_skip _ _ _ _ _ hskip]
  simp only [List.foldl_nil]
  unfold executeAndPersist
  simp only [hprod, hok, hver, List.foldl_nil, List.filterMap_nil, List.map_nil,
    List.append_nil]
  simp
/-! ## Supporting lemmas: context hashing -/
/-! Order lemmas for the key comparison `keyLe`. -/
theorem char_toNat_inj {c d : Char} (h : c.toNat = d.toNat) : c = d := by
  have h2 : Char.ofNat c.toNat = Char.ofNat d.toNat := congrArg _ h
  rwa [Char.ofNat_toNat, Char.ofNat_toNat] at h2
theorem lexLe_total : ∀ a b : List Char, lexLe a b = true ∨ lexLe b a = true := by
  intro a
  induction a with
  | nil => intro b; left; rfl
  | cons c cs ih =>
    intro b
    cases b with
    | nil => right; rfl
    | cons d ds =>
      by_cases h1 : c.toNat < d.toNat
      · left; simp [lexLe, h1]
      · by_cases h2 : c.toNat = d.toNat
        · rcases ih ds with h | h
          · left; simp [lexLe, h1, h2, h]
          · right
            have h3 : ¬ d.toNat < c.toNat := by omega
            simp [lexLe, h3, h2.symm, h]
        · right
          have h3 : d.toNat < c.toNat := by omega
          simp [lexLe, h3]
theorem lexLe_antisymm : ∀ a b : List Char, lexLe a b = true → lexLe b a = true → a = b := by
  intro a
  induction a with
  | nil =>
    intro b _ hba
    cases b with
    | nil => rfl
    | cons d ds => simp [lexLe] at hba
  | cons c cs ih =>
    intro b hab hba
    cases b with
    | nil => simp [lexLe] at hab
    | cons d ds =>
      simp only [lexLe] at hab hba
      by_cases h1 : c.toNat < d.toNat
      · have h2 : ¬ d.toNat < c.toNat := by omega
        have h3 : ¬ d.toNat = c.toNat := by omega
        simp [h2, h3] at hba
      · by_cases h2 : c.toNat = d.toNat
        · have hc : c = d := char_toNat_inj h2
          subst hc
          simp at hab hba
          rw [ih ds hab hba]
        · simp [h1, h2] at hab
theorem lexLe_trans : ∀ a b c : List Char,
    lexLe a b = true → lexLe b c = true → lexLe a c = true := by
  intro a
  induction a with
  | nil => intro b c _ _; rfl
  | cons x xs ih =>
    intro b c hab hbc
    cases b with
    | nil => simp [lexLe] at hab
    | cons y ys =>
      cases c with
      | nil => simp [lexLe] at hbc
      | cons z zs =>
        simp only [lexLe] at hab hbc ⊢
        by_cases hxy : x.toNat < y.toNat <;> by_cases hyz : y.toNat < z.toNat
        · simp [show x.toNat < z.toNat by omega]
        · by_cases hyz2 : y.toNat = z.toNat
          · simp [show x.toNat < z.toNat by omega]
          · simp [hyz, hyz2] at hbc
        · by_cases hxy2 : x.toNat = y.toNat
          · simp [show x.toNat < z.toNat by omega]
          · simp [hxy, hxy2] at hab
        · by_cases hxy2 : x.toNat = y.toNat
          · by_cases hyz2 : y.toNat = z.toNat
            · have h1 : ¬ x.toNat < z.toNat := by omega
              have h2 : x.toNat = z.toNat := by omega
              simp [hxy, hxy2] at hab
              simp [hyz, hyz2] at hbc
              simp [h1, h2, ih ys zs hab hbc]
            · simp [hyz, hyz2] at hbc
          · simp [hxy, hxy2] at hab
theorem keyLe_total (a b : String) : keyLe a b = true ∨ keyLe b a = true :=
  lexLe_total a.data b.data
theorem keyLe_antisymm {a b : String} (h1 : keyLe a b = true) (h2 : keyLe b a = true) :
    a = b := by
  cases a with
  | mk da =>
    cases b with
    | mk db =>
      exact congrArg String.mk (lexLe_antisymm da db h1 h2)
theorem keyLe_trans {a b c : String} (h1 : keyLe a b = true) (h2 : keyLe b c = true) :
    keyLe a c = true :=
  lexLe_trans a.data b.data c.data h1 h2
theorem keyLe_false_imp {a b : String} (h : keyLe a b = false) : keyLe b a = true := by
  rcases keyLe_total a b with h' | h'
  · rw [h] at h'; cases h'
  · exact h'
theorem insertPair_comm (p q : String × Value) (h : p.1 ≠ q.1) :
    ∀ l : List (String × Value),
      insertPair p (insertPair q l) = insertPair q (insertPair p l) := by
  intro l
  induction l with
  | nil =>
    by_cases hpq : keyLe p.1 q.1 = true
    · have hqp : keyLe q.1 p.1 = false := by
        cases hq : keyLe q.1 p.1
        · rfl
        · exact absurd (keyLe_antisymm hpq hq) h
      simp [insertPair, hpq, hqp]
    · have hpq' : keyLe p.1 q.1 = false := by
        cases hp : keyLe p.1 q.1
        · rfl
        · exact absurd hp hpq
      have hqp : keyLe q.1 p.1 = true := keyLe_false_imp hpq'
      simp [insertPair, hpq', hqp]
  | cons r l ih =>
    by_cases hqr : keyLe q.1 r.1 = true <;> by_cases hpr : keyLe p.1 r.1 = true
    · -- both insert before r
      by_cases hpq : keyLe p.1 q.1 = true
      · have hqp : keyLe q.1 p.1 = false := by
          cases hq : keyLe q.1 p.1
          · rfl
          · exact absurd (keyLe_antisymm hpq hq) h
        simp [insertPair, hqr, hpr, hpq, hqp]
      · have hqp : keyLe q.1 p.1 = true := keyLe_false_imp (by
          cases hp : keyLe p.1 q.1
          · rfl
          · rw [hp] at hpq; exact absurd rfl hpq)
        simp [insertPair, hqr, hpr, hpq, hqp]
    · -- q before r, p after r: then p is not ≤ q either
      have hpq : keyLe p.1 q.1 = false := by
        cases hp : keyLe p.1 q.1
        · rfl
        · exact absurd (keyLe_trans hp hqr) (by simp [hpr])
      simp [insertPair, hqr, hpr, hpq]
    · -- p before r, q after r
      have hqp : keyLe q.1 p.1 = false := by
        cases hq : keyLe q.1 p.1
        · rfl
        · exact absurd (keyLe_trans hq hpr) (by simp [hqr])
      simp [insertPair, hqr, hpr, hqp]
    · -- both after r
      simp [insertPair, hqr, hpr, ih]
theorem canonValue_semVar {a b : Value} (h : SemVar a b) : canonValue a = canonValue b := by
  induction h with
  | refl v => rfl
  | dateIso y m d => rfl
  | isoDate y m d => rfl
  | decNum q => rfl
  | numDec q => rfl
  | listCons x y xs ys hxy hl ih1 ih2 =>
    simp only [canonValue, normalize_context, normalizeList, deepSort, deepSortList] at ih1 ih2 ⊢
    simp only [Value.vlist.injEq] at ih2
    rw [ih1, ih2]
  | dictCons k v w fs gs hvw hd ih1 ih2 =>
    simp only [canonValue, normalize_context, normalizeFields, deepSort, deepSortFields] at ih1 ih2 ⊢
    simp only [Value.vdict.injEq] at ih2
    by_cases hk : k ∈ transientKeys
    · simp only [hk, if_true, ih2]
    · simp only [hk, if_false, deepSortFields, sortPairs, ih1, ih2]
  | dictSwap k1 k2 v1 v2 fs hne =>
    simp only [canonValue, normalize_context, normalizeFields, deepSort]
    by_cases h1 : k1 ∈ transientKeys <;> by_cases h2 : k2 ∈ transientKeys <;>
      simp only [h1, h2, if_true, if_false]
    simp only [deepSortFields, sortPairs]
    rw [insertPair_comm _ _ (by simpa using hne)]
  | trans a b c hab hbc ih1 ih2 => rw [ih1, ih2]
theorem hash_context_semVar (c1 c2 : Ctx) (h : SemVar (.vdict c1) (.vdict c2)) :
    hash_context c1 = hash_context c2 := by
  have := canonValue_semVar h
  simp only [canonValue] at this
  simp only [hash_context, this]
theorem normalizeFields_append (l1 l2 : List (String × Value)) :
    normalizeFields (l1 ++ l2) = normalizeFields l1 ++ normalizeFields l2 := by
  induction l1 with
  | nil => rfl
  | cons p l ih =>
    rcases p with ⟨k, v⟩
    by_cases hk : k ∈ transientKeys <;> simp [normalizeFields, hk, ih]
theorem normalizeList_append (l1 l2 : List Value) :
    normalizeList (l1 ++ l2) = normalizeList l1 ++ normalizeList l2 := by
  induction l1 with
  | nil => rfl
  | cons x l ih => simp [normalizeList, ih]
theorem normalize_addTransient {a b : Value} (h : AddTransient a b) :
    normalize_context a = normalize_context b := by
  induction h with
  | here fs1 fs2 k w hk =>
    simp only [normalize_context, normalizeFields_append, normalizeFields, hk, if_true]
  | inDict k v v' fs1 fs2 hvv ih =>
    by_cases hk : k ∈ transientKeys <;>
      simp only [normalize_context, normalizeFields_append, normalizeFields, hk,
        if_true, if_false, ih]
  | inList v v' xs1 xs2 hvv ih =>
    simp only [normalize_context, normalizeList_append, normalizeList, ih]
theorem hash_context_addTransient (c1 c2 : Ctx) (h : AddTransient (.vdict c1) (.vdict c2)) :
    hash_context c1 = hash_context c2 := by
  simp only [hash_context, normalize_addTransient h]
/-! ## Supporting lemmas: graph and cycle detection -/
theorem mem_interleave_self (x : String) :
    ∀ (c : List String), x ∈ c → c ∈ interleave x (c.erase x) := by
  intro c
  induction c with
  | nil => intro h; cases h
  | cons y ys ih =>
    intro hx
    by_cases hxy : y = x
    · subst hxy
      rw [List.erase_cons_head]
      cases ys with
      | nil => exact List.mem_singleton.mpr rfl
      | cons z zs => exact List.mem_cons_self _ _
    · have hx' : x ∈ ys := by
        rcases List.mem_cons.mp hx with h | h
        · exact absurd h.symm hxy
        · exact h
      have herase : (y :: ys).erase x = y :: ys.erase x := by
        rw [List.erase_cons]
        simp [hxy]
      rw [herase]
      show y :: ys ∈ (x :: y :: ys.erase x) :: (interleave x (ys.erase x)).map (y :: ·)
      apply List.mem_cons.mpr
      right
      exact List.mem_map.mpr ⟨ys, ih hx', rfl⟩
theorem interleave_perm (x : String) :
    ∀ (l c : List String), c ∈ interleave x l → c.Perm (x :: l) := by
  intro l
  induction l with
  | nil =>
    intro c hc
    rw [List.mem_singleton.mp hc]
  | cons y ys ih =>
    intro c hc
    rcases List.mem_cons.mp hc with h | h
    · rw [h]
    · rcases List.mem_map.mp h with ⟨c', hc', rfl⟩
      exact ((ih c' hc').cons y).trans (List.Perm.swap x y ys)
theorem subPerms_sound :
    ∀ (l c : List String), c ∈ subPerms l → List.Subperm c l := by
  intro l
  induction l with
  | nil =>
    intro c hc
    rw [List.mem_singleton.mp hc]
  | cons x xs ih =>
    intro c hc
    simp only [subPerms, List.mem_append, List.mem_flatMap] at hc
    rcases hc with h | ⟨c', hc', hint⟩
    · exact (ih c h).trans (List.sublist_cons_self x xs).subperm
    · have hperm := interleave_perm x c' c hint
      have h2 : List.Subperm (x :: c') (x :: xs) := (List.subperm_cons x).mpr (ih c' hc')
      exact hperm.subperm.trans h2
theorem subPerms_complete :
    ∀ (l c : List String), List.Subperm c l → c ∈ subPerms l := by
  intro l
  induction l with
  | nil =>
    intro c hc
    rw [List.subperm_nil.mp hc]
    exact List.mem_singleton.mpr rfl
  | cons x xs ih =>
    intro c hc
    simp only [subPerms, List.mem_append, List.mem_flatMap]
    by_cases hx : x ∈ c
    · right
      have hperm : c.Perm (x :: c.erase x) := List.perm_cons_erase hx
      have h1 : List.Subperm (x :: c.erase x) (x :: xs) := hperm.symm.subperm.trans hc
      have h2 : List.Subperm (c.erase x) xs := (List.subperm_cons x).mp h1
      exact ⟨c.erase x, ih _ h2, mem_interleave_self x c hx⟩
    · left
      rcases hc with ⟨c', hperm, hsub⟩
      rcases List.sublist_cons_iff.mp hsub with h | ⟨r, hr, hrsub⟩
      · exact ih c ⟨c', hperm, h⟩
      · rw [hr] at hperm
        exact absurd (hperm.mem_iff.mp (List.mem_cons_self x r)) hx
/-! Graph construction invariants and membership. -/
theorem addNode_nodes (g : Graph) (n m : String) :
    m ∈ (addNode g n).nodes ↔ m ∈ g.nodes ∨ m = n := by
  unfold addNode
  by_cases h : n ∈ g.nodes
  · simp only [h, if_true]
    constructor
    · exact Or.inl
    · rintro (hm | rfl)
      · exact hm
      · exact h
  · simp [h]
theorem addNode_edges (g : Graph) (n : String) : (addNode g n).edges = g.edges := by
  unfold addNode
  by_cases h : n ∈ g.nodes <;> simp [h]
theorem addNode_wf (g : Graph) (n : String) (h : graphWF g) : graphWF (addNode g n) := by
  rcases h with ⟨hnd, he⟩
  constructor
  · unfold addNode
    by_cases hn : n ∈ g.nodes
    · simpa [hn] using hnd
    · simp only [hn, if_false]
      exact List.Nodup.append hnd (List.nodup_singleton n) (by
        intro a ha hb
        rw [List.mem_singleton] at hb
        subst hb
        exact hn ha)
  · intro e hee
    rw [addNode_edges] at hee
    rcases he e hee with ⟨h1, h2⟩
    exact ⟨(addNode_nodes g n e.1).mpr (Or.inl h1), (addNode_nodes g n e.2).mpr (Or.inl h2)⟩
theorem addEdge_edges (g : Graph) (a b : String) (e : String × String) :
    e ∈ (addEdge g a b).edges ↔ e ∈ g.edges ∨ e = (a, b) := by
  unfold addEdge
  dsimp only
  by_cases h : (a, b) ∈ (addNode (addNode g a) b).edges
  · rw [if_pos h]
    rw [addNode_edges, addNode_edges] at h
    rw [addNode_edges, addNode_edges]
    constructor
    · exact Or.inl
    · rintro (hm | rfl)
      · exact hm
      · exact h
  · rw [if_neg h]
    show e ∈ (addNode (addNode g a) b).edges ++ [(a, b)] ↔ _
    rw [addNode_edges, addNode_edges]
    simp [List.mem_append]
theorem addEdge_nodes (g : Graph) (a b m : String) :
    m ∈ (addEdge g a b).nodes ↔ m ∈ g.nodes ∨ m = a ∨ m = b := by
  unfold addEdge
  dsimp only
  by_cases h : (a, b) ∈ (addNode (addNode g a) b).edges
  · rw [if_pos h, addNode_nodes, addNode_nodes]
    tauto
  · rw [if_neg h]
    show m ∈ (addNode (addNode g a) b).nodes ↔ _
    rw [addNode_nodes, addNode_nodes]
    tauto
theorem addEdge_wf (g : Graph) (a b : String) (h : graphWF g) : graphWF (addEdge g a b) := by
  have h2 := addNode_wf (addNode g a) b (addNode_wf g a h)
  unfold addEdge
  dsimp only
  by_cases he : (a, b) ∈ (addNode (addNode g a) b).edges
  · simpa [he] using h2
  · simp only [he, if_false]
    rcases h2 with ⟨hnd, hedges⟩
    refine ⟨hnd, ?_⟩
    intro e hee
    rcases List.mem_append.mp hee with hm | hm
    · exact hedges e hm
    · rw [List.mem_singleton] at hm
      subst hm
      constructor
      · exact (addNode_nodes _ b a).mpr (Or.inl ((addNode_nodes g a a).mpr (Or.inr rfl)))
      · exact (addNode_nodes _ b b).mpr (Or.inr rfl)
theorem inner_foldl_edges (f : String) :
    ∀ (reqs : List String) (g : Graph) (e : String × String),
      e ∈ (reqs.foldl (fun g' dep => addEdge g' f dep) g).edges ↔
        e ∈ g.edges ∨ ∃ d ∈ reqs, e = (f, d) := by
  intro reqs
  induction reqs with
  | nil => intro g e; simp
  | cons r rs ih =>
    intro g e
    rw [List.foldl_cons, ih, addEdge_edges]
    simp only [List.mem_cons]
    constructor
    · rintro ((h | rfl) | ⟨d, hd, rfl⟩)
      · exact Or.inl h
      · exact Or.inr ⟨r, Or.inl rfl, rfl⟩
      · exact Or.inr ⟨d, Or.inr hd, rfl⟩
    · rintro (h | ⟨d, (rfl | hd), rfl⟩)
      · exact Or.inl (Or.inl h)
      · exact Or.inl (Or.inr rfl)
      · exact Or.inr ⟨d, hd, rfl⟩
theorem inner_foldl_nodes_mono (f : String) :
    ∀ (reqs : List String) (g : Graph) (m : String),
      m ∈ g.nodes → m ∈ (reqs.foldl (fun g' dep => addEdge g' f dep) g).nodes := by
  intro reqs
  induction reqs with
  | nil => intro g m hm; exact hm
  | cons r rs ih =>
    intro g m hm
    rw [List.foldl_cons]
    exact ih _ m ((addEdge_nodes g f r m).mpr (Or.inl hm))
theorem buildGraphFrom_edges (specs : List (String × List String)) (e : String × String) :
    e ∈ (buildGraphFrom specs).edges ↔ ∃ p ∈ specs, p.1 = e.1 ∧ e.2 ∈ p.2 := by
  unfold buildGraphFrom
  suffices h : ∀ (l : List (String × List String)) (g : Graph),
      e ∈ (l.foldl (fun g p => (p.2).foldl (fun g' dep => addEdge g' p.1 dep) (addNode g p.1)) g).edges ↔
        e ∈ g.edges ∨ ∃ p ∈ l, p.1 = e.1 ∧ e.2 ∈ p.2 by
    rw [h specs { nodes := [], edges := [] }]
    simp
  intro l
  induction l with
  | nil => intro g; simp
  | cons p ps ih =>
    intro g
    rw [List.foldl_cons, ih, inner_foldl_edges, addNode_edges]
    simp only [List.mem_cons]
    constructor
    · rintro ((h | ⟨d, hd, rfl⟩) | ⟨q, hq, h1, h2⟩)
      · exact Or.inl h
      · exact Or.inr ⟨p, Or.inl rfl, rfl, hd⟩
      · exact Or.inr ⟨q, Or.inr hq, h1, h2⟩
    · rintro (h | ⟨q, (rfl | hq), h1, h2⟩)
      · exact Or.inl (Or.inl h)
      · rcases e with ⟨e1, e2⟩
        subst h1
        exact Or.inl (Or.inr ⟨e2, h2, rfl⟩)
      · exact Or.inr ⟨q, hq, h1, h2⟩
theorem buildGraphFrom_registered_node (specs : List (String × List String)) (p : String × List String)
    (hp : p ∈ specs) : p.1 ∈ (buildGraphFrom specs).nodes := by
  unfold buildGraphFrom
  suffices h : ∀ (l : List (String × List String)) (g : Graph),
      (p.1 ∈ g.nodes ∨ p ∈ l) →
      p.1 ∈ (l.foldl (fun g q => (q.2).foldl (fun g' dep => addEdge g' q.1 dep) (addNode g q.1)) g).nodes by
    exact h specs { nodes := [], edges := [] } (Or.inr hp)
  intro l
  induction l with
  | nil =>
    intro g hg
    rcases hg with h | h
    · exact h
    · cases h
  | cons q qs ih =>
    intro g hg
    rw [List.foldl_cons]
    rcases hg with h | h
    · exact ih _ (Or.inl (inner_foldl_nodes_mono q.1 q.2 _ _ ((addNode_nodes g q.1 p.1).mpr (Or.inl h))))
    · rcases List.mem_cons.mp h with rfl | h'
      · exact ih _ (Or.inl (inner_foldl_nodes_mono p.1 p.2 _ _ ((addNode_nodes g p.1 p.1).mpr (Or.inr rfl))))
      · exact ih _ (Or.inr h')
theorem buildGraphFrom_wf (specs : List (String × List String)) :
    graphWF (buildGraphFrom specs) := by
  unfold buildGraphFrom
  refine foldl_preserves ?_ specs ({ nodes := [], edges := [] } : Graph) ⟨List.nodup_nil, by simp⟩
  intro g p hg
  refine foldl_preserves ?_ p.2 (addNode g p.1) (addNode_wf g p.1 hg)
  intro g' d hg'
  exact addEdge_wf g' p.1 d hg'
/-! Membership in the cycle enumeration. -/
theorem isCycleList_nodup {g : Graph} {c : List String}
    (h : isCycleList g c = true) : c.Nodup := by
  unfold isCycleList at h
  simp only [Bool.and_eq_true, beq_iff_eq] at h
  exact List.dedup_eq_self.mp h.1.1.2
theorem mem_detect_cycles {g : Graph} {c : List String} :
    c ∈ detect_cycles g ↔ List.Subperm c g.nodes ∧ isCycleList g c = true := by
  unfold detect_cycles
  rw [List.mem_filter]
  constructor
  · rintro ⟨h1, h2⟩
    exact ⟨subPerms_sound g.nodes c h1, h2⟩
  · rintro ⟨h1, h2⟩
    exact ⟨subPerms_complete g.nodes c h1, h2⟩
theorem chainArrows_iff (g : Graph) :
    ∀ c : List String, chainArrows g c = true ↔ List.Chain' (fun a b => edgeB g a b = true) c := by
  intro c
  induction c with
  | nil => simp [chainArrows]
  | cons a rest ih =>
    cases rest with
    | nil => simp [chainArrows]
    | cons b l =>
      constructor
      · intro h
        have h' : (edgeB g a b && chainArrows g (b :: l)) = true := h
        rw [Bool.and_eq_true] at h'
        exact List.chain'_cons.mpr ⟨h'.1, ih.mp h'.2⟩
      · intro h
        rcases List.chain'_cons.mp h with ⟨h1, h2⟩
        show (edgeB g a b && chainArrows g (b :: l)) = true
        rw [Bool.and_eq_true]
        exact ⟨h1, ih.mpr h2⟩
theorem chainArrows_mem (g : Graph) :
    ∀ (c : List String), chainArrows g c = true →
      ∀ x ∈ c, c.getLast? = some x ∨ ∃ y, edgeB g x y = true := by
  intro c
  induction c with
  | nil => intro _ x hx; cases hx
  | cons a rest ih =>
    intro hch x hx
    cases rest with
    | nil =>
      rcases List.mem_singleton.mp hx with rfl
      exact Or.inl rfl
    | cons b l =>
      unfold chainArrows at hch
      rw [Bool.and_eq_true] at hch
      rcases List.mem_cons.mp hx with rfl | hx'
      · exact Or.inr ⟨b, hch.1⟩
      · rcases ih hch.2 x hx' with h | h
        · left
          rw [List.getLast?_cons_cons]
          exact h
        · exact Or.inr h
theorem cycle_mem_nodes {g : Graph} (hwf : graphWF g) {c : List String}
    (h : isCycleList g c = true) : ∀ x ∈ c, x ∈ g.nodes := by
  unfold isCycleList at h
  simp only [Bool.and_eq_true] at h
  obtain ⟨⟨⟨hne, _⟩, hch⟩, hclose⟩ := h
  intro x hx
  rcases chainArrows_mem g c hch x hx with hlast | ⟨y, hy⟩
  · rcases hh : c.head? with _ | ⟨hd⟩
    · rw [List.head?_eq_none_iff] at hh
      subst hh
      cases hx
    · rw [hlast, hh] at hclose
      exact (hwf.2 (x, hd) (by simpa [edgeB] using hclose)).1
  · exact (hwf.2 (x, y) (by simpa [edgeB] using hy)).1
theorem detect_cycles_complete {g : Graph} (hwf : graphWF g) {c : List String}
    (h : isCycleList g c = true) : c ∈ detect_cycles g := by
  rw [mem_detect_cycles]
  refine ⟨List.Nodup.subperm (isCycleList_nodup h) ?_, h⟩
  intro x hx
  exact cycle_mem_nodes hwf h x hx
theorem isClosedWalk_iff (g : Graph) (c : List String) :
    isClosedWalk g c = true ↔
      c ≠ [] ∧ List.Chain' (fun a b => edgeB g a b = true) c ∧
        ∃ l h, c.getLast? = some l ∧ c.head? = some h ∧ edgeB g l h = true := by
  unfold isClosedWalk
  simp only [Bool.and_eq_true, Bool.not_eq_eq_eq_not, Bool.not_true]
  constructor
  · rintro ⟨⟨hne, hch⟩, hclose⟩
    refine ⟨by simpa [List.isEmpty_iff] using hne, (chainArrows_iff g c).mp hch, ?_⟩
    rcases hl : c.getLast? with _ | ⟨l⟩ <;> rcases hh : c.head? with _ | ⟨h⟩ <;>
      rw [hl, hh] at hclose
    · cases hclose
    · cases hclose
    · cases hclose
    · exact ⟨l, h, rfl, rfl, hclose⟩
  · rintro ⟨hne, hch, l, h, hl, hh, he⟩
    refine ⟨⟨?_, (chainArrows_iff g c).mpr hch⟩, ?_⟩
    · simpa [List.isEmpty_iff] using hne
    · rw [hl, hh]
      exact he
theorem double_sublist_split {x : String} :
    ∀ (c : List String), List.Sublist [x, x] c →
      ∃ l1 l2 l3, c = l1 ++ x :: l2 ++ x :: l3 := by
  intro c
  induction c with
  | nil => intro h; cases h
  | cons y ys ih =>
    intro h
    cases h with
    | cons _ h' =>
      rcases ih h' with ⟨l1, l2, l3, rfl⟩
      exact ⟨y :: l1, l2, l3, rfl⟩
    | cons₂ _ h' =>
      have hx : x ∈ ys := List.singleton_sublist.mp h'
      rcases List.append_of_mem hx with ⟨s, t, rfl⟩
      exact ⟨[], s, t, rfl⟩
theorem closedWalk_to_simple (g : Graph) :
    ∀ (n : Nat) (c : List String), c.length ≤ n → isClosedWalk g c = true →
      ∃ c', isCycleList g c' = true := by
  intro n
  induction n with
  | zero =>
    intro c hlen hcw
    rw [List.length_eq_zero.mp (Nat.le_zero.mp hlen)] at hcw
    cases hcw
  | succ n ih =>
    intro c hlen hcw
    by_cases hnd : c.Nodup
    · refine ⟨c, ?_⟩
      rcases (isClosedWalk_iff g c).mp hcw with ⟨hne, hch, l, h, hl, hh, he⟩
      unfold isCycleList
      simp only [Bool.and_eq_true, beq_iff_eq]
      refine ⟨⟨⟨?_, List.dedup_eq_self.mpr hnd⟩, (chainArrows_iff g c).mpr hch⟩, ?_⟩
      · simpa [List.isEmpty_iff] using hne
      · rw [hl, hh]
        exact he
    · obtain ⟨x, hdup⟩ := List.exists_duplicate_iff_not_nodup.mpr hnd
      obtain ⟨l1, l2, l3, rfl⟩ :=
        double_sublist_split _ (List.duplicate_iff_sublist.mp hdup)
      rcases (isClosedWalk_iff g _).mp hcw with ⟨hne, hch, l, h, hl, hh, he⟩
      have hassoc : l1 ++ x :: l2 ++ x :: l3 = (l1 ++ x :: l2) ++ (x :: l3) := by
        simp
      rw [hassoc] at hch
      rcases List.chain'_append.mp hch with ⟨hA, hB, hC⟩
      have hlast2 : ∃ w, (x :: l2).getLast? = some w := by
        cases hq : (x :: l2).getLast?
        · rw [List.getLast?_eq_none_iff] at hq
          cases hq
        · exact ⟨_, rfl⟩
      rcases hlast2 with ⟨w, hw⟩
      have hlast : (l1 ++ x :: l2).getLast? = some w := by
        rw [List.getLast?_append, hw]
        rfl
      have hRwx : edgeB g w x = true := by
        apply hC w (by rw [hlast]; simp) x
        simp
      have hwalk : isClosedWalk g (x :: l2) = true := by
        rw [isClosedWalk_iff]
        refine ⟨by simp, ?_, w, x, hw, rfl, hRwx⟩
        exact (List.chain'_append.mp hA).2.1
      apply ih (x :: l2) ?_ hwalk
      have : (l1 ++ x :: l2 ++ x :: l3).length ≤ n + 1 := hlen
      simp only [List.length_append, List.length_cons] at this ⊢
      omega
theorem isCycleList_isClosedWalk {g : Graph} {c : List String}
    (h : isCycleList g c = true) : isClosedWalk g c = true := by
  unfold isCycleList at h
  unfold isClosedWalk
  simp only [Bool.and_eq_true] at h ⊢
  exact ⟨⟨h.1.1.1, h.1.2⟩, h.2⟩
theorem detect_cycles_iff {g : Graph} (hwf : graphWF g) (c : List String) :
    c ∈ detect_cycles g ↔ isCycleList g c = true := by
  constructor
  · intro h
    exact (mem_detect_cycles.mp h).2
  · intro h
    exact detect_cycles_complete hwf h
theorem hasCycle_iff_detect {g : Graph} (hwf : graphWF g) :
    hasCycle g ↔ detect_cycles g ≠ [] := by
  constructor
  · rintro ⟨c, hc⟩
    rcases closedWalk_to_simple g c.length c (Nat.le_refl _) hc with ⟨c', hc'⟩
    intro hempty
    rw [List.eq_nil_iff_forall_not_mem] at hempty
    exact hempty c' (detect_cycles_complete hwf hc')
  · intro hne
    rcases List.exists_mem_of_ne_nil _ hne with ⟨c, hc⟩
    exact ⟨c, isCycleList_isClosedWalk (mem_detect_cycles.mp hc).2⟩
theorem build_dependency_graph_wf (reg : FactRegistry) :
    graphWF (build_dependency_graph reg) :=
  buildGraphFrom_wf _
theorem build_taxonomy_fails_iff (defs : List FactDefinitionRec)
    (versions : List FactDefinitionVersionRec) :
    (∃ e, build_taxonomy defs versions = .error e) ↔
      hasCycle (build_dependency_graph (buildTaxonomyRegistry defs versions)) := by
  unfold build_taxonomy
  dsimp only
  rw [hasCycle_iff_detect (build_dependency_graph_wf _)]
  by_cases h : (detect_cycles (build_dependency_graph (buildTaxonomyRegistry defs versions))).isEmpty
  · rw [if_pos h]
    rw [List.isEmpty_iff] at h
    constructor
    · rintro ⟨e, he⟩
      cases he
    · intro hne
      exact absurd h hne
  · rw [if_neg h]
    rw [List.isEmpty_iff] at h
    exact ⟨fun _ => h, fun _ => ⟨_, rfl⟩⟩
/-! ## Supporting lemmas: the intent router -/
/-! Characterization of the scored stage's fold. -/
theorem scored_fold_no_winner (f : Option (String → String → Rat)) (text : String) :
    ∀ (recs : List Recognizer) (b : Rat × Option Nat),
      (∀ r ∈ recs, recognizerScore f text r ≤ 60) →
      recs.foldl
        (fun (best : Rat × Option Nat) item =>
          let score := recognizerScore f text item
          if score > best.1 ∧ score > 60 then (score, some item.version) else best) b = b := by
  intro recs
  induction recs with
  | nil => intro b _; rfl
  | cons r rest ih =>
    intro b hall
    rw [List.foldl_cons]
    have hr := hall r (List.mem_cons_self _ _)
    rw [if_neg (by
      rintro ⟨_, h2⟩
      exact absurd hr (not_le.mpr h2))]
    exact ih b fun q hq => hall q (List.mem_cons_of_mem _ hq)
theorem scored_fold_below (f : Option (String → String → Rat)) (text : String) (m : Rat) :
    ∀ (recs : List Recognizer) (b : Rat × Option Nat),
      (∀ r ∈ recs, recognizerScore f text r < m) → b.1 < m →
      (recs.foldl
        (fun (best : Rat × Option Nat) item =>
          let score := recognizerScore f text item
          if score > best.1 ∧ score > 60 then (score, some item.version) else best) b).1 < m := by
  intro recs
  induction recs with
  | nil => intro b _ hb; exact hb
  | cons r rest ih =>
    intro b hall hb
    rw [List.foldl_cons]
    by_cases hcond : recognizerScore f text r > b.1 ∧ recognizerScore f text r > 60
    · rw [if_pos hcond]
      exact ih _ (fun q hq => hall q (List.mem_cons_of_mem _ hq))
        (hall r (List.mem_cons_self _ _))
    · rw [if_neg hcond]
      exact ih b (fun q hq => hall q (List.mem_cons_of_mem _ hq)) hb
theorem scored_fold_keep (f : Option (String → String → Rat)) (text : String) (s : Rat)
    (v : Nat) :
    ∀ (recs : List Recognizer),
      (∀ r ∈ recs, recognizerScore f text r ≤ s) →
      recs.foldl
        (fun (best : Rat × Option Nat) item =>
          let score := recognizerScore f text item
          if score > best.1 ∧ score > 60 then (score, some item.version) else best)
        (s, some v) = (s, some v) := by
  intro recs
  induction recs with
  | nil => intro _; rfl
  | cons r rest ih =>
    intro hall
    rw [List.foldl_cons]
    rw [if_neg (by
      rintro ⟨h1, _⟩
      exact absurd (hall r (List.mem_cons_self _ _)) (not_le.mpr h1))]
    exact ih fun q hq => hall q (List.mem_cons_of_mem _ hq)
/-- The scored stage selects the first recognizer attaining the maximal
score, provided that score strictly exceeds the threshold 60. -/
theorem scoredStage_winner (f : Option (String → String → Rat)) (text : String)
    (pre post : List Recognizer) (r : Recognizer)
    (hpre : ∀ q ∈ pre, recognizerScore f text q < recognizerScore f text r)
    (hmax : ∀ q ∈ post, recognizerScore f text q ≤ recognizerScore f text r)
    (hthr : recognizerScore f text r > 60) :
    scoredStage f (pre ++ r :: post) text = some r.version := by
  unfold scoredStage
  rw [List.foldl_append, List.foldl_cons]
  have hbelow := scored_fold_below f text (recognizerScore f text r) pre (0, none) hpre
    (by
      show (0 : Rat) < recognizerScore f text r
      calc (0 : Rat) < 60 := by norm_num
        _ < recognizerScore f text r := hthr)
  rw [if_pos ⟨hbelow, hthr⟩]
  rw [scored_fold_keep f text _ _ post hmax]
theorem scoredStage_none (f : Option (String → String → Rat)) (text : String)
    (recs : List Recognizer)
    (hall : ∀ r ∈ recs, recognizerScore f text r ≤ 60) :
    scoredStage f recs text = none := by
  unfold scoredStage
  rw [scored_fold_no_winner f text recs (0, none) hall]
theorem route_scored_winner (f : Option (String → String → Rat)) (text : String)
    (pre post : List Recognizer) (r : Recognizer)
    (hregex : regexStage (pre ++ r :: post) text = none)
    (hpre : ∀ q ∈ pre, recognizerScore f text q < recognizerScore f text r)
    (hmax : ∀ q ∈ post, recognizerScore f text q ≤ recognizerScore f text r)
    (hthr : recognizerScore f text r > 60) :
    route f (pre ++ r :: post) text = (some r.version, []) := by
  unfold route
  rw [hregex, scoredStage_winner f text pre post r hpre hmax hthr]
theorem route_scored_none (f : Option (String → String → Rat)) (text : String)
    (recs : List Recognizer)
    (hregex : regexStage recs text = none)
    (hall : ∀ r ∈ recs, recognizerScore f text r ≤ 60) :
    route f recs text = (none, []) := by
  unfold route
  rw [hregex, scoredStage_none f text recs hall]
/-! ## Scenario data and claim theorems -/
/-! Concrete scenario data used by witnesses and counterexamples. -/
/-- C6 counterexample: the claim says a persisted error-status instance prevents
re-execution on a repeated identical request in a fresh request.  In the code the
DB cache lookup filters on status success, so after a first call persists an
error row for fact X, a second fresh-request call re-executes the logic: the
execution log after the second call is [X, X].  The row only prevents a duplicate
row (get_or_create), so the DB still holds exactly one instance. -/
theorem claim_C6_counterexample :
    (c6First.2.db.map fun i => (i.fact_version, i.context_hash, i.status))
        = [(some 7, hash_context [], "error")] ∧
    (c6First.1 = .error (.runtime "Error computing X: boom")) ∧
    c6Second.2.execLog = ["X", "X"] ∧
    c6Second.2.db.length = 1 := by
  refine ⟨by rfl, by rfl, by rfl, by rfl⟩
theorem dbFindByKey_append_self (db : List FactInstance) (ver : Nat) (h : String)
    (row : FactInstance) (hbk : dbFindByKey db ver h = none)
    (hver : row.fact_version = some ver) (hhash : row.context_hash = h) :
    dbFindByKey (db ++ [row]) ver h = some row := by
  unfold dbFindByKey at *
  rw [List.find?_append, hbk]
  simp [hver, hhash]
theorem dbFindSuccess_append_error (db : List FactInstance) (ver : Nat) (h : String)
    (row : FactInstance) (hs : dbFindSuccess db ver h = none)
    (hstatus : row.status = "error") :
    dbFindSuccess (db ++ [row]) ver h = none := by
  unfold dbFindSuccess at *
  rw [List.find?_append, hs]
  simp [hstatus]
/-- C6 amended: when a fact with no schema and no dependencies has logic that
raises, resolve_fact persists an error-status FactInstance for
(version, context_hash), memoizes it in the request store, and raises a
RuntimeError to its caller.  A repeated identical request in a fresh request
store does re-execute the logic (the DB cache lookup filters on status success),
but the persisted error row prevents a second row from being created: the second
call raises the same error and leaves the DB unchanged. -/
theorem claim_C6_amended
    (fuel fuel2 : Nat) (reg : FactRegistry) (fact_id : String) (context : Ctx)
    (st : ResState) (spec : FactSpec) (p : Producer) (ver : Nat) (msg : String)
    (hstore : st.store.lookup (fact_id ++ ":" ++ hash_context context) = none)
    (hspec : reg.spec fact_id = some spec)
    (hval : spec.parameters_schema = none)
    (hreq : spec.requires = [])
    (hdep : spec.dependencies = [])
    (hprod : spec.producer = some p)
    (hver : spec.version_obj = some ver)
    (hperr : p [] context = .error msg)
    (hbk : dbFindByKey st.db ver (hash_context context) = none) :
    resolve_fact (fuel + 1) reg fact_id context st =
      (.error (.runtime ("Error computing " ++ fact_id ++ ": " ++ msg)),
       { st with
         callLog := st.callLog ++ [(fact_id, hash_context context)],
         execLog := st.execLog ++ [fact_id],
         db := st.db ++
           [{ id := some st.nextId, fact_version := some ver,
              context := normalize_context (.vdict context),
              context_hash := hash_context context,
              value := none, status := "error", error := some msg,
              provenance := { dependency_instance_ids := [],
                              input_context := normalize_context (.vdict context) } }],
         nextId := st.nextId + 1,
         store := assocSet st.store (fact_id ++ ":" ++ hash_context context)
           { id := some st.nextId, fact_version := some ver,
             context := normalize_context (.vdict context),
             context_hash := hash_context context,
             value := none, status := "error", error := some msg,
             provenance := { dependency_instance_ids := [],
                             input_context := normalize_context (.vdict context) } } }) ∧
    resolve_fact (fuel2 + 1) reg fact_id context
      { st with
        callLog := st.callLog ++ [(fact_id, hash_context context)],
        execLog := st.execLog ++ [fact_id],
        db := st.db ++
          [{ id := some st.nextId, fact_version := some ver,
             context := normalize_context (.vdict context),
             context_hash := hash_context context,
             value := none, status := "error", error := some msg,
             provenance := { dependency_instance_ids := [],
                             input_context := normalize_context (.vdict context) } }],
        nextId := st.nextId + 1,
        store := [] } =
      (.error (.runtime ("Error computing " ++ fact_id ++ ": " ++ msg)),
       { st with
         callLog := (st.callLog ++ [(fact_id, hash_context context)])
           ++ [(fact_id, hash_context context)],
         execLog := (st.execLog ++ [fact_id]) ++ [fact_id],
         db := st.db ++
           [{ id := some st.nextId, fact_version := some ver,
              context := normalize_context (.vdict context),
              context_hash := hash_context context,
              value := none, status := "error", error := some msg,
              provenance := { dependency_instance_ids := [],
                              input_context := normalize_context (.vdict context) } }],
         nextId := st.nextId + 1,
         store := assocSet [] (fact_id ++ ":" ++ hash_context context)
           { id := some st.nextId, fact_version := some ver,
             context := normalize_context (.vdict context),
             context_hash := hash_context context,
             value := none, status := "error", error := some msg,
             provenance := { dependency_instance_ids := [],
                             input_context := normalize_context (.vdict context) } } }) := by
  constructor
  · exact resolve_fact_exec_error fuel reg fact_id context st spec p ver msg
      hstore hspec hval hreq hdep hprod hver hperr hbk
  · have hs2 := dbFindSuccess_none_of_byKey_none st.db ver (hash_context context) hbk
    exact resolve_fact_exec_error_repeat fuel2 reg fact_id context _ spec p ver msg _
      rfl hspec hval hreq hdep hprod hver hperr
      (dbFindSuccess_append_error st.db ver (hash_context context) _ hs2 rfl)
      (dbFindByKey_append_self st.db ver (hash_context context) _ hbk rfl rfl)
/-- C6 amended, concrete witness: fact X whose logic raises boom errors on the
first call and re-executes on a fresh-request second call. -/
theorem claim_C6_amended_witness :
    c6First.1 = .error (.runtime "Error computing X: boom") ∧
    c6Second.2.execLog = ["X", "X"] := by
  have h := claim_C6_amended 0 0 c6Reg "X" [] {}
    { id := "X", producer := some errorProducer, version_obj := some 7 }
    errorProducer 7 "boom" rfl rfl rfl rfl rfl rfl rfl rfl rfl
  exact ⟨congrArg Prod.fst h.1, rfl⟩
/-- C1: if a success-status FactInstance already exists in the DB for
(spec.version, context_hash), resolve_fact returns it immediately: no dependency
resolution, no logic execution (the execution log is unchanged), no new DB row.
Moreover resolve_fact preserves uniqueness of (fact_version, context_hash) over
the DB, so at most one instance exists per pair. -/
theorem claim_C1
    (fuel : Nat) (reg : FactRegistry) (fact_id : String) (context : Ctx)
    (st : ResState) (spec : FactSpec) (ver : Nat) (inst : FactInstance)
    (hstore : st.store.lookup (fact_id ++ ":" ++ hash_context context) = none)
    (hspec : reg.spec fact_id = some spec)
    (hval : ∀ schema, spec.parameters_schema = some schema →
      validate_context context schema = .ok ())
    (hver : spec.version_obj = some ver)
    (hcache : dbFindSuccess st.db ver (hash_context context) = some inst) :
    resolve_fact (fuel + 1) reg fact_id context st =
      (.ok inst,
       { st with
         callLog := st.callLog ++ [(fact_id, hash_context context)],
         store := assocSet st.store (fact_id ++ ":" ++ hash_context context) inst }) ∧
    (∀ (fuel2 : Nat) (reg2 : FactRegistry) (id2 : String) (ctx2 : Ctx) (st2 : ResState),
      dbKeyUnique st2.db → dbKeyUnique (resolve_fact fuel2 reg2 id2 ctx2 st2).2.db) :=
  ⟨resolve_fact_cache_hit fuel reg fact_id context st spec ver inst hstore hspec hval hver hcache,
   fun fuel2 reg2 id2 ctx2 st2 h2 => resolve_fact_unique fuel2 reg2 id2 ctx2 st2 h2⟩
/-- C1 witness: a concrete registry with a cached success row for fact A. -/
theorem claim_C1_witness :
    ((resolve_fact 1 c1Reg "A" [] c1St).1 = .ok c1Inst ∧
      (resolve_fact 1 c1Reg "A" [] c1St).2.db = [c1Inst] ∧
      (resolve_fact 1 c1Reg "A" [] c1St).2.execLog = []) ∧
    dbKeyUnique (resolve_fact 1 c1Reg "A" [] c1St).2.db := by
  have h := claim_C1 0 c1Reg "A" [] c1St c1Spec 1 c1Inst rfl rfl
    (fun schema hs => by cases hs) rfl rfl
  exact ⟨⟨congrArg Prod.fst h.1, congrArg (fun r => r.2.db) h.1,
    congrArg (fun r => r.2.execLog) h.1⟩,
    h.2 1 c1Reg "A" [] c1St (by simp [dbKeyUnique, c1St])⟩
/-- C5: when a fact has a parameters schema and the context fails validation,
resolve_fact returns (does not raise) an error-status FactInstance carrying the
validation message; no dependency is resolved, no logic executes, and nothing is
persisted to the DB — the instance is cached only in the per-request store. -/
theorem claim_C5
    (fuel : Nat) (reg : FactRegistry) (fact_id : String) (context : Ctx)
    (st : ResState) (spec : FactSpec) (schema : Schema) (msg : String)
    (hstore : st.store.lookup (fact_id ++ ":" ++ hash_context context) = none)
    (hspec : reg.spec fact_id = some spec)
    (hschema : spec.parameters_schema = some schema)
    (hval : validate_context context schema = .error msg) :
    resolve_fact (fuel + 1) reg fact_id context st =
      (.ok { status := "error", error := some msg,
             context := normalize_context (.vdict context),
             context_hash := hash_context context },
       { st with
         callLog := st.callLog ++ [(fact_id, hash_context context)],
         store := assocSet st.store (fact_id ++ ":" ++ hash_context context)
           { status := "error", error := some msg,
             context := normalize_context (.vdict context),
             context_hash := hash_context context } }) :=
  resolve_fact_validation_error fuel reg fact_id context st spec schema msg
    hstore hspec hschema hval
/-- C5 witness: fact V requires field x; an empty context fails validation and
yields an error-status instance with empty DB and execution log. -/
theorem claim_C5_witness :
    (resolve_fact 1 c5Reg "V" [] {}).1 =
      .ok { status := "error",
            error := some "Context validation failed: 'x' is a required property",
            context := .vdict [], context_hash := hash_context [] } ∧
    (resolve_fact 1 c5Reg "V" [] {}).2.db = [] ∧
    (resolve_fact 1 c5Reg "V" [] {}).2.execLog = [] ∧
    (resolve_fact 1 c5Reg "V" [] {}).2.callLog = [("V", hash_context [])] := by
  have h := claim_C5 0 c5Reg "V" [] {} c5Spec c5Schema
    "Context validation failed: 'x' is a required property" rfl rfl rfl rfl
  exact ⟨congrArg Prod.fst h, congrArg (fun r => r.2.db) h,
    congrArg (fun r => r.2.execLog) h, congrArg (fun r => r.2.callLog) h⟩
/-- C10: within a single request (same store), after a resolve_fact call for
(fact_id, context) ends in an execution error — which memoizes the error-status
instance under its in-flight key and then raises — every later resolve_fact call
for the same pair with that store hits the store and returns the memoized
error-status instance normally: it does not raise and does not re-execute. -/
theorem claim_C10
    (fuel fuel2 : Nat) (reg : FactRegistry) (fact_id : String) (context : Ctx)
    (st : ResState) (inst : FactInstance) (e : RErr)
    (h1 : (resolve_fact fuel reg fact_id context st).1 = .error e)
    (hmem : (resolve_fact fuel reg fact_id context st).2.store.lookup
      (fact_id ++ ":" ++ hash_context context) = some inst)
    (hstatus : inst.status = "error") :
    resolve_fact (fuel2 + 1) reg fact_id context (resolve_fact fuel reg fact_id context st).2 =
      (.ok inst,
       { (resolve_fact fuel reg fact_id context st).2 with
         callLog := (resolve_fact fuel reg fact_id context st).2.callLog
           ++ [(fact_id, hash_context context)] }) :=
  resolve_fact_store_hit fuel2 reg fact_id context _ inst hmem
/-- C10 witness: after the erroring first call for fact X, a second call with
the same store returns the memoized error-status instance without raising. -/
theorem claim_C10_witness :
    resolve_fact 1 c6Reg "X" [] c6First.2 =
      (.ok c10Inst,
       { c6First.2 with callLog := c6First.2.callLog ++ [("X", hash_context [])] }) :=
  claim_C10 1 0 c6Reg "X" [] {} c10Inst (.runtime "Error computing X: boom") rfl rfl rfl
/-- C8: a structured dependency edge whose condition evaluates false or raises
is skipped entirely: the fold over edges leaves the accumulator untouched (the
target is not resolved and no entry, not even a null, enters the dependency
value map), and resolution of the parent fact still succeeds when its logic
tolerates the absence. -/
theorem claim_C8 :
    (∀ (r : String → Ctx → ResState → Except RErr FactInstance × ResState)
       (context : Ctx) (acc : DepAcc) (edge : DependencyEdge)
       (rest : List DependencyEdge) (cond : Expr),
      edge.condition = some cond →
      ((∃ e, execute_expression cond context = .error e) ∨
       (∃ v, execute_expression cond context = .ok v ∧ truthy v = false)) →
      List.foldl (edgeStep r context) acc (edge :: rest)
        = List.foldl (edgeStep r context) acc rest) ∧
    (∀ (fuel : Nat) (reg : FactRegistry) (fact_id : String) (context : Ctx)
       (st : ResState) (spec : FactSpec) (p : Producer) (edge : DependencyEdge) (v : Value),
      st.store.lookup (fact_id ++ ":" ++ hash_context context) = none →
      reg.spec fact_id = some spec →
      spec.parameters_schema = none →
      spec.requires = [] →
      spec.dependencies = [edge] →
      edgeSkipped edge context = true →
      spec.producer = some p →
      spec.version_obj = none →
      p [] context = .ok v →
      resolve_fact (fuel + 1) reg fact_id context st =
        (.ok { value := some v, status := "success", error := none,
               provenance := { dependency_instance_ids := [],
                               input_context := normalize_context (.vdict context) } },
         { st with
           callLog := st.callLog ++ [(fact_id, hash_context context)],
           execLog := st.execLog ++ [fact_id],
           store := assocSet st.store (fact_id ++ ":" ++ hash_context context)
             { value := some v, status := "success", error := none,
               provenance := { dependency_instance_ids := [],
                               input_context := normalize_context (.vdict context) } } })) :=
  ⟨fun r context acc edge rest cond hcond hfalsy =>
    foldl_edgeStep_skip r context acc edge rest (edgeSkipped_of_falsy edge context cond hcond hfalsy),
   fun fuel reg fact_id context st spec p edge v h1 h2 h3 h4 h5 h6 h7 h8 h9 =>
    resolve_fact_skipped_edge_success fuel reg fact_id context st spec p edge v
      h1 h2 h3 h4 h5 h6 h7 h8 h9⟩
/-- C4: the claim says safe_execute enforces a wall-clock budget and surfaces a
distinct timed-out failure.  In the code safe_execute accepts a timeout argument
but never reads it and runs the logic in-process, so diverging logic never
completes under any budget (the observation function yields none, i.e. the call
hangs) and no outcome is ever the timed-out failure. -/
theorem claim_C4 :
    (∀ t : Nat, safe_execute_observe .diverges t = none) ∧
    (∀ (b : LogicBehavior) (t : Nat), isTimedOut (safe_execute_observe b t) = false) ∧
    safe_execute_observe .diverges 1 = none := by
  refine ⟨fun t => rfl, fun b t => ?_, rfl⟩
  cases b <;> rfl
/-- C3 counterexample: the claim says the graph has an edge for every structured
DependencyEdge target.  In the code build_dependency_graph only adds edges from
the flat requires list: a registry whose fact A has one structured edge to B and
empty requires yields a graph with no edges at all. -/
theorem claim_C3_counterexample :
    c3Reg.spec "A" = some c3Spec ∧
    c3Spec.dependencies = [{ to_fact_id := "B", param_mapping := [], condition := none }] ∧
    (build_dependency_graph c3Reg).edges = [] ∧
    edgeB (build_dependency_graph c3Reg) "A" "B" = false :=
  ⟨rfl, rfl, rfl, rfl⟩
/-- C3 amended: the built dependency graph has one node per registered fact id,
and an edge from fact to dependency exactly for the entries of that fact's flat
requires list; structured DependencyEdge targets contribute no edges. -/
theorem claim_C3_amended (reg : FactRegistry) (e : String × String) :
    (e ∈ (build_dependency_graph reg).edges ↔
      ∃ p ∈ reg.specs, p.1 = e.1 ∧ e.2 ∈ p.2.requires) ∧
    (∀ p ∈ reg.specs, p.1 ∈ (build_dependency_graph reg).nodes) := by
  constructor
  · rw [build_dependency_graph, buildGraphFrom_edges]
    constructor
    · rintro ⟨q, hq, h1, h2⟩
      rcases List.mem_map.mp hq with ⟨p, hp, rfl⟩
      exact ⟨p, hp, h1, h2⟩
    · rintro ⟨p, hp, h1, h2⟩
      exact ⟨(p.1, p.2.requires), List.mem_map.mpr ⟨p, hp, rfl⟩, h1, h2⟩
  · intro p hp
    exact buildGraphFrom_registered_node _ (p.1, p.2.requires)
      (List.mem_map.mpr ⟨p, hp, rfl⟩)
theorem c9_score : recognizerScore (some zeroFuzz) "alpha beta" c9Rec = 60 := by
  unfold recognizerScore
  simp only [c9Rec, List.isEmpty_cons, if_true, if_false]
  norm_num
  rw [show (List.filter (fun k => strContains (strLower "alpha beta") (strLower k))
      ["alpha", "beta", "gamma"]).length = 2 from rfl]
  norm_num
/-- C9 counterexample: the claim says the keyword-overlap ratio is scaled to the
same 0 to 100 range as the fuzzy score.  In the code the ratio is multiplied by
90, so a recognizer matching 2 of 3 keywords scores exactly 60 — not the
200/3 (about 66.7) the claim predicts — and with threshold strictly above 60 the
router selects nothing, where the claim predicts selection. -/
theorem claim_C9_counterexample :
    recognizerScore (some zeroFuzz) "alpha beta" c9Rec = 60 ∧
    (((2 : Rat) / 3) * 100 > 60 ∧
      recognizerScore (some zeroFuzz) "alpha beta" c9Rec ≠ ((2 : Rat) / 3) * 100) ∧
    route (some zeroFuzz) [c9Rec] "alpha beta" = (none, []) := by
  refine ⟨c9_score, ⟨by norm_num, by rw [c9_score]; norm_num⟩, ?_⟩
  refine route_scored_none _ _ _ rfl ?_
  intro r hr
  rcases List.mem_singleton.mp hr with rfl
  rw [c9_score]
/-- C9 amended: in the scored stage (entered only when no regex matched), each
score is the maximum of the fuzzy similarity and the keyword ratio scaled by 90;
the single highest scorer is returned only if its score strictly exceeds 60,
ties break first-registered-wins (earlier recognizers need a strictly larger
later score to be displaced), and the extracted context is empty. -/
theorem claim_C9_amended :
    (∀ (f : Option (String → String → Rat)) (text : String)
       (pre post : List Recognizer) (r : Recognizer),
      regexStage (pre ++ r :: post) text = none →
      (∀ q ∈ pre, recognizerScore f text q < recognizerScore f text r) →
      (∀ q ∈ post, recognizerScore f text q ≤ recognizerScore f text r) →
      recognizerScore f text r > 60 →
      route f (pre ++ r :: post) text = (some r.version, [])) ∧
    (∀ (f : Option (String → String → Rat)) (text : String) (recs : List Recognizer),
      regexStage recs text = none →
      (∀ r ∈ recs, recognizerScore f text r ≤ 60) →
      route f recs text = (none, [])) :=
  ⟨fun f text pre post r h1 h2 h3 h4 => route_scored_winner f text pre post r h1 h2 h3 h4,
   fun f text recs h1 h2 => route_scored_none f text recs h1 h2⟩
/-- C7: build_taxonomy fails (returns an error, serving no registry) iff the
dependency graph has a cycle; detect_cycles enumerates exactly the simple
cycles; the concrete registry A to B to C to A fails construction and its three
rotations of the triangle are the enumerated cycles, each containing exactly the
ids A, B, C; the registry with only A to B builds with zero cycles. -/
theorem claim_C7 :
    (∀ (defs : List FactDefinitionRec) (versions : List FactDefinitionVersionRec),
      (∃ e, build_taxonomy defs versions = .error e) ↔
        hasCycle (build_dependency_graph (buildTaxonomyRegistry defs versions))) ∧
    (∀ g : Graph, graphWF g → ∀ c, c ∈ detect_cycles g ↔ isCycleList g c = true) ∧
    (∃ e, build_taxonomy c7Defs c7Versions = .error e) ∧
    detect_cycles (build_dependency_graph (buildTaxonomyRegistry c7Defs c7Versions))
      = [["A", "B", "C"], ["B", "C", "A"], ["C", "A", "B"]] ∧
    (∃ reg, build_taxonomy c7DefsAB c7VersionsAB = .ok reg) ∧
    detect_cycles (build_dependency_graph (buildTaxonomyRegistry c7DefsAB c7VersionsAB))
      = [] := by
  refine ⟨build_taxonomy_fails_iff, fun g hwf c => detect_cycles_iff hwf c,
    ⟨"Cycle detected in fact dependencies", by rfl⟩, by rfl, ⟨_, by rfl⟩, by rfl⟩
/-- C2: hash_context is invariant under semantic identity of contexts — dict key
reordering, date object vs ISO string, Decimal vs float of the same value
(relation SemVar) — and under adding or removing the transient keys user,
request and session_id at any nesting level (relation AddTransient). -/
theorem claim_C2 :
    (∀ c1 c2 : Ctx, SemVar (.vdict c1) (.vdict c2) → hash_context c1 = hash_context c2) ∧
    (∀ c1 c2 : Ctx, AddTransient (.vdict c1) (.vdict c2) → hash_context c1 = hash_context c2) :=
  ⟨hash_context_semVar, hash_context_addTransient⟩
